import Mathlib

/-!
Verification of the TacoQ Python client SDK (worker runtime, codecs,
publisher client) against its natural-language specification.

The relevant Python sources are shallowly embedded:
* `tacoq/core/encoding/*` — the codec layer (passthrough, string, JSON
  dict, pydantic) and the polymorphic `create_encoder` / `create_decoder`
  selection functions;
* `tacoq/core/models/exception.py` — `SerializedException`;
* `tacoq/worker/client.py` — `WorkerApplication.register_task`,
  `_execute_task_assignment`, `_cleanup`, `wait_for_shutdown`,
  `_init_broker_client`;
* `tacoq/publisher/client.py` — `PublisherClient.get_task`.

Python byte strings are `List Nat` (each entry < 256), Python `str`
values are `List Nat` of Unicode code points, identifiers such as task
kinds are opaque and modeled as `Nat`.  The Python standard-library
`json` module (an external collaborator of the SDK) is modeled by an
executable JSON printer and parser over these representations.
-/

namespace TacoQ

/-! ## UTF-8 (model of Python `str.encode("utf-8")` / `bytes.decode("utf-8")`) -/

/-- A Unicode scalar value: a code point below 0x110000 that is not a
surrogate.  Python `str.encode("utf-8")` succeeds exactly on strings of
scalar values (lone surrogates raise `UnicodeEncodeError`). -/
def IsScalar (c : Nat) : Prop := c < 0x110000 ∧ (c < 0xD800 ∨ 0xDFFF < c)

instance (c : Nat) : Decidable (IsScalar c) := by unfold IsScalar; infer_instance

/-- UTF-8 encoding of a single code point. -/
def utf8EncodeChar (c : Nat) : List Nat :=
  if c < 0x80 then [c]
  else if c < 0x800 then [0xC0 + c / 64, 0x80 + c % 64]
  else if c < 0x10000 then [0xE0 + c / 4096, 0x80 + c / 64 % 64, 0x80 + c % 64]
  else [0xF0 + c / 262144, 0x80 + c / 4096 % 64, 0x80 + c / 64 % 64, 0x80 + c % 64]

/-- UTF-8 encoding of a string (a list of code points) into bytes. -/
def utf8Encode (s : List Nat) : List Nat := (s.map utf8EncodeChar).flatten

/-- Whether a byte is a UTF-8 continuation byte (`0b10xxxxxx`). -/
def isCont (b : Nat) : Bool := 0x80 ≤ b && b < 0xC0

/-- Decoding of one UTF-8 sequence: given the lead byte and the remaining
bytes, returns the code point and the bytes after the sequence. -/
def utf8DecodeOne (b : Nat) (rest : List Nat) : Option (Nat × List Nat) :=
  if b < 0x80 then some (b, rest)
  else if b < 0xC0 then none
  else if b < 0xE0 then
    match rest with
    | b1 :: r =>
      if isCont b1 then some ((b - 0xC0) * 64 + (b1 - 0x80), r) else none
    | [] => none
  else if b < 0xF0 then
    match rest with
    | b1 :: b2 :: r =>
      if isCont b1 && isCont b2 then
        some ((b - 0xE0) * 4096 + (b1 - 0x80) * 64 + (b2 - 0x80), r)
      else none
    | _ => none
  else if b < 0xF8 then
    match rest with
    | b1 :: b2 :: b3 :: r =>
      if isCont b1 && isCont b2 && isCont b3 then
        some ((b - 0xF0) * 262144 + (b1 - 0x80) * 4096 + (b2 - 0x80) * 64 + (b3 - 0x80), r)
      else none
    | _ => none
  else none

/-- Fuel-driven UTF-8 decoding loop (the fuel bounds the number of decoded
code points; one byte of input per code point is a safe bound). -/
def utf8DecodeAux : Nat → List Nat → Option (List Nat)
  | _, [] => some []
  | 0, _ :: _ => none
  | fuel + 1, b :: rest =>
    match utf8DecodeOne b rest with
    | none => none
    | some (c, r) => (utf8DecodeAux fuel r).map (c :: ·)

/-- UTF-8 decoding of bytes into code points; `none` on malformed input.
The decoder mirrors `bytes.decode("utf-8")` on well-formed input (it is
lenient about overlong forms, which never arise from `utf8Encode`). -/
def utf8Decode (l : List Nat) : Option (List Nat) := utf8DecodeAux l.length l

lemma utf8EncodeChar_decodeOne (c : Nat) (hc : c < 0x110000) (rest : List Nat) :
    ∃ b t, utf8EncodeChar c = b :: t ∧ utf8DecodeOne b (t ++ rest) = some (c, rest) := by
  by_cases h1 : c < 0x80
  · refine ⟨c, [], ?_, ?_⟩
    · simp [utf8EncodeChar, h1]
    · simp [utf8DecodeOne, h1]
  · by_cases h2 : c < 0x800
    · refine ⟨0xC0 + c / 64, [0x80 + c % 64], ?_, ?_⟩
      · rw [utf8EncodeChar, if_neg h1, if_pos h2]
      · rw [utf8DecodeOne.eq_def, if_neg (by omega), if_neg (by omega), if_pos (by omega)]
        have hcont : isCont (0x80 + c % 64) = true := by simp [isCont]; omega
        simp only [List.singleton_append, hcont, if_pos]
        have : (0xC0 + c / 64 - 0xC0) * 64 + (0x80 + c % 64 - 0x80) = c := by omega
        rw [this]
    · by_cases h3 : c < 0x10000
      · refine ⟨0xE0 + c / 4096, [0x80 + c / 64 % 64, 0x80 + c % 64], ?_, ?_⟩
        · rw [utf8EncodeChar, if_neg h1, if_neg h2, if_pos h3]
        · rw [utf8DecodeOne.eq_def, if_neg (by omega), if_neg (by omega), if_neg (by omega),
            if_pos (by omega)]
          have hcont1 : isCont (0x80 + c / 64 % 64) = true := by simp [isCont]; omega
          have hcont2 : isCont (0x80 + c % 64) = true := by simp [isCont]; omega
          simp only [List.cons_append, List.nil_append, hcont1, hcont2, Bool.and_self,
            if_pos]
          have : (0xE0 + c / 4096 - 0xE0) * 4096 + (0x80 + c / 64 % 64 - 0x80) * 64 +
              (0x80 + c % 64 - 0x80) = c := by omega
          rw [this]
      · refine ⟨0xF0 + c / 262144,
          [0x80 + c / 4096 % 64, 0x80 + c / 64 % 64, 0x80 + c % 64], ?_, ?_⟩
        · rw [utf8EncodeChar, if_neg h1, if_neg h2, if_neg h3]
        · rw [utf8DecodeOne.eq_def, if_neg (by omega), if_neg (by omega), if_neg (by omega),
            if_neg (by omega), if_pos (by omega)]
          have hcont1 : isCont (0x80 + c / 4096 % 64) = true := by simp [isCont]; omega
          have hcont2 : isCont (0x80 + c / 64 % 64) = true := by simp [isCont]; omega
          have hcont3 : isCont (0x80 + c % 64) = true := by simp [isCont]; omega
          simp only [List.cons_append, List.nil_append, hcont1, hcont2, hcont3,
            Bool.and_self, if_pos]
          have : (0xF0 + c / 262144 - 0xF0) * 262144 + (0x80 + c / 4096 % 64 - 0x80) * 4096 +
              (0x80 + c / 64 % 64 - 0x80) * 64 + (0x80 + c % 64 - 0x80) = c := by omega
          rw [this]

lemma utf8DecodeAux_encode (s : List Nat) (hs : ∀ c ∈ s, c < 0x110000) :
    ∀ fuel, s.length ≤ fuel → utf8DecodeAux fuel (utf8Encode s) = some s := by
  induction s with
  | nil => intro fuel _; cases fuel <;> simp [utf8Encode, utf8DecodeAux]
  | cons c tl ih =>
    intro fuel hf
    have hc : c < 0x110000 := hs c (List.mem_cons_self c tl)
    have htl : ∀ x ∈ tl, x < 0x110000 := fun x hx => hs x (List.mem_cons_of_mem c hx)
    obtain ⟨b, t, henc, hdec⟩ := utf8EncodeChar_decodeOne c hc (utf8Encode tl)
    have hE : utf8Encode (c :: tl) = b :: (t ++ utf8Encode tl) := by
      simp [utf8Encode, henc.symm]
      rw [henc]
      simp
    obtain ⟨f, rfl⟩ : ∃ f, fuel = f + 1 := by
      cases fuel with
      | zero => simp at hf
      | succ f => exact ⟨f, rfl⟩
    rw [hE]
    show (match utf8DecodeOne b (t ++ utf8Encode tl) with
      | none => none
      | some (c, r) => (utf8DecodeAux f r).map (c :: ·)) = some (c :: tl)
    rw [hdec]
    show (utf8DecodeAux f (utf8Encode tl)).map (c :: ·) = some (c :: tl)
    rw [ih htl f (by simpa using hf)]
    rfl

lemma utf8Encode_length_ge (s : List Nat) : s.length ≤ (utf8Encode s).length := by
  induction s with
  | nil => simp [utf8Encode]
  | cons c tl ih =>
    have : utf8Encode (c :: tl) = utf8EncodeChar c ++ utf8Encode tl := by simp [utf8Encode]
    rw [this]
    have hpos : 1 ≤ (utf8EncodeChar c).length := by
      unfold utf8EncodeChar
      by_cases h1 : c < 0x80 <;> by_cases h2 : c < 0x800 <;> by_cases h3 : c < 0x10000 <;>
        simp [h1, h2, h3]
    simp only [List.length_append, List.length_cons]
    omega

/-- Round-trip of the UTF-8 model: decoding an encoded string recovers it. -/
lemma utf8Decode_encode (s : List Nat) (hs : ∀ c ∈ s, c < 0x110000) :
    utf8Decode (utf8Encode s) = some s := by
  unfold utf8Decode
  exact utf8DecodeAux_encode s hs _ (utf8Encode_length_ge s)


/-! ## JSON (model of Python `json.dumps` / `json.loads`)

Python's `json` standard-library module is an external collaborator of
the SDK; it is modeled here by an executable printer and parser over
code-point lists.  JSON values are restricted to the types the SDK's
codecs transport (`null`, booleans, arbitrary-precision integers,
strings, arrays, string-keyed objects); floats are outside the model.
Objects are association lists in insertion order, as Python dicts are.
-/

mutual
inductive Json where
  | null : Json
  | bool (b : Bool) : Json
  | int (n : Int) : Json
  | str (s : List Nat) : Json
  | arr (items : JsonArr) : Json
  | obj (fields : JsonObj) : Json
inductive JsonArr where
  | nil : JsonArr
  | cons (hd : Json) (tl : JsonArr) : JsonArr
inductive JsonObj where
  | nil : JsonObj
  | cons (key : List Nat) (val : Json) (tl : JsonObj) : JsonObj
end

/-- Whether every code point of a string is a Unicode scalar value. -/
def scalarStr (s : List Nat) : Bool := s.all (fun c => decide (IsScalar c))

mutual
/-- Well-formedness of a JSON value in this model: every string consists
of Unicode scalar values (Python strings holding lone surrogates cannot
be UTF-8 encoded). -/
def wfJson : Json → Bool
  | .null => true
  | .bool _ => true
  | .int _ => true
  | .str s => scalarStr s
  | .arr xs => wfArr xs
  | .obj xs => wfObj xs
def wfArr : JsonArr → Bool
  | .nil => true
  | .cons h t => wfJson h && wfArr t
def wfObj : JsonObj → Bool
  | .nil => true
  | .cons k v t => scalarStr k && wfJson v && wfObj t
end

/-- Hexadecimal digit character (lowercase), as `json.dumps` emits in
`\uXXXX` escapes. -/
def hexDigit (d : Nat) : Nat := if d < 10 then 48 + d else 87 + d

/-- Value of a hexadecimal digit character (accepting both cases), as the
`json.loads` scanner does. -/
def hexVal (c : Nat) : Option Nat :=
  if 48 ≤ c ∧ c ≤ 57 then some (c - 48)
  else if 97 ≤ c ∧ c ≤ 102 then some (c - 87)
  else if 65 ≤ c ∧ c ≤ 70 then some (c - 55)
  else none

/-- Four-character hexadecimal rendering of a value below 0x10000. -/
def toHex4 (n : Nat) : List Nat :=
  [hexDigit (n / 4096 % 16), hexDigit (n / 256 % 16), hexDigit (n / 16 % 16), hexDigit (n % 16)]

/-- Combined value of four hexadecimal digit characters. -/
def hexVal4 (a b c d : Nat) : Option Nat :=
  match hexVal a, hexVal b, hexVal c, hexVal d with
  | some x, some y, some z, some w => some (x * 4096 + y * 256 + z * 16 + w)
  | _, _, _, _ => none

/-- Escaping of one string character, following CPython's `json` encoder.
With `ea` (ensure_ascii, the `json.dumps` default) every character
outside `0x20`–`0x7E` becomes a `\uXXXX` escape (astral characters
become a surrogate pair); without it (the mode pydantic's serializer
uses) only `"`, `\` and control characters are escaped. -/
def escapeChar (ea : Bool) (c : Nat) : List Nat :=
  if c = 34 then [92, 34]
  else if c = 92 then [92, 92]
  else if c = 10 then [92, 110]
  else if c = 13 then [92, 114]
  else if c = 9 then [92, 116]
  else if c = 8 then [92, 98]
  else if c = 12 then [92, 102]
  else if c < 0x20 then 92 :: 117 :: toHex4 c
  else if ea ∧ 0x7E < c then
    if c < 0x10000 then 92 :: 117 :: toHex4 c
    else
      let v := c - 0x10000
      92 :: 117 :: toHex4 (0xD800 + v / 1024) ++ (92 :: 117 :: toHex4 (0xDC00 + v % 1024))
  else [c]

/-- Escaped body of a JSON string. -/
def escapeString (ea : Bool) (s : List Nat) : List Nat := (s.map (escapeChar ea)).flatten

/-- Quoted JSON string. -/
def printString (ea : Bool) (s : List Nat) : List Nat := 34 :: escapeString ea s ++ [34]

/-- Fuel-driven decimal-digit loop (adequate when the number is at most
the fuel). -/
def natToDigitsAux : Nat → Nat → List Nat
  | 0, n => [48 + n]
  | f + 1, n => if n < 10 then [48 + n] else natToDigitsAux f (n / 10) ++ [48 + n % 10]

/-- Decimal digits of a natural number. -/
def natToDigits (n : Nat) : List Nat := natToDigitsAux n n

/-- Decimal rendering of an integer, as `json.dumps` and Python `repr`
produce it. -/
def intToChars (n : Int) : List Nat :=
  if n < 0 then 45 :: natToDigits n.natAbs else natToDigits n.toNat

/-- Item separator: `", "` with spaced separators (the `json.dumps`
default), `","` in compact mode (pydantic's `model_dump_json`). -/
def itemSep (sp : Bool) : List Nat := 44 :: if sp then [32] else []

/-- Key/value separator: `": "` or `":"`. -/
def kvSep (sp : Bool) : List Nat := 58 :: if sp then [32] else []

mutual
/-- Serialization of a JSON value, parameterized by `ea` (ensure_ascii)
and `sp` (spaced separators).  `printJson true true` models the
`json.dumps(…)` call of `JsonDictEncoder`/`SerializedException`;
`printJson false false` models pydantic's `model_dump_json()`. -/
def printJson (ea sp : Bool) : Json → List Nat
  | .null => [110, 117, 108, 108]
  | .bool true => [116, 114, 117, 101]
  | .bool false => [102, 97, 108, 115, 101]
  | .int n => intToChars n
  | .str s => printString ea s
  | .arr .nil => [91, 93]
  | .arr (.cons h t) => 91 :: (printJson ea sp h ++ printArrTail ea sp t) ++ [93]
  | .obj .nil => [123, 125]
  | .obj (.cons k v t) =>
    123 :: (printString ea k ++ kvSep sp ++ printJson ea sp v ++ printObjTail ea sp t) ++ [125]
/-- Serialization of the remaining array items, each preceded by the item
separator. -/
def printArrTail (ea sp : Bool) : JsonArr → List Nat
  | .nil => []
  | .cons h t => itemSep sp ++ printJson ea sp h ++ printArrTail ea sp t
/-- Serialization of the remaining object entries, each preceded by the
item separator. -/
def printObjTail (ea sp : Bool) : JsonObj → List Nat
  | .nil => []
  | .cons k v t => itemSep sp ++ printString ea k ++ kvSep sp ++ printJson ea sp v ++ printObjTail ea sp t
end

/-- Whether a code point is JSON whitespace. -/
def isJsonWs (c : Nat) : Bool := c = 32 || c = 9 || c = 10 || c = 13

/-- Leading-whitespace removal. -/
def skipWs : List Nat → List Nat
  | [] => []
  | c :: r => if isJsonWs c then skipWs r else c :: r

/-- Prepending a parsed character to a string-parse result. -/
def consM (x : Nat) (o : Option (List Nat × List Nat)) : Option (List Nat × List Nat) :=
  o.map (fun p => (x :: p.1, p.2))

/-- Parsing of a JSON string body (after the opening quote), following
CPython's `py_scanstring`: backslash escapes, `\uXXXX` escapes, and
surrogate-pair recombination; raw control characters are rejected
(strict mode).  Returns the string and the input after the closing
quote. -/
def parseStringBody : Nat → List Nat → Option (List Nat × List Nat)
  | 0, _ => none
  | fuel + 1, input =>
    match input with
    | [] => none
    | c :: r =>
      if c = 34 then some ([], r)
      else if c = 92 then
        match r with
        | [] => none
        | e :: r2 =>
          if e = 34 then consM 34 (parseStringBody fuel r2)
          else if e = 92 then consM 92 (parseStringBody fuel r2)
          else if e = 47 then consM 47 (parseStringBody fuel r2)
          else if e = 98 then consM 8 (parseStringBody fuel r2)
          else if e = 102 then consM 12 (parseStringBody fuel r2)
          else if e = 110 then consM 10 (parseStringBody fuel r2)
          else if e = 114 then consM 13 (parseStringBody fuel r2)
          else if e = 116 then consM 9 (parseStringBody fuel r2)
          else if e = 117 then
            match r2 with
            | a :: b :: c1 :: d :: r3 =>
              match hexVal4 a b c1 d with
              | none => none
              | some h =>
                if 0xD800 ≤ h ∧ h < 0xDC00 then
                  match r3 with
                  | x :: y :: a2 :: b2 :: c2 :: d2 :: r4 =>
                    if x = 92 ∧ y = 117 then
                      match hexVal4 a2 b2 c2 d2 with
                      | none => none
                      | some l =>
                        if 0xDC00 ≤ l ∧ l < 0xE000 then
                          consM (0x10000 + (h - 0xD800) * 1024 + (l - 0xDC00))
                            (parseStringBody fuel r4)
                        else consM h (parseStringBody fuel (x :: y :: a2 :: b2 :: c2 :: d2 :: r4))
                    else consM h (parseStringBody fuel (x :: y :: a2 :: b2 :: c2 :: d2 :: r4))
                  | other => consM h (parseStringBody fuel other)
                else consM h (parseStringBody fuel r3)
            | _ => none
          else none
      else if c < 0x20 then none
      else consM c (parseStringBody fuel r)

/-- Whether a code point is a decimal digit. -/
def isDigitCp (c : Nat) : Bool := 48 ≤ c && c ≤ 57

/-- Longest digit run at the head of the input. -/
def spanDigits : List Nat → List Nat × List Nat
  | [] => ([], [])
  | c :: r =>
    if isDigitCp c then
      let p := spanDigits r
      (c :: p.1, p.2)
    else ([], c :: r)

/-- Accumulating decimal value of a digit-character run. -/
def digitsToNat : List Nat → Nat → Nat
  | [], acc => acc
  | d :: r, acc => digitsToNat r (acc * 10 + (d - 48))

/-- Parsing of an integer literal starting at `c :: r` (the only number
form the SDK's payloads use; floats are outside this model). -/
def parseNumber (c : Nat) (r : List Nat) : Option (Json × List Nat) :=
  if c = 45 then
    match spanDigits r with
    | ([], _) => none
    | (ds, rest) => some (.int (-(digitsToNat ds 0 : Nat)), rest)
  else if isDigitCp c then
    let p := spanDigits r
    some (.int (digitsToNat (c :: p.1) 0), p.2)
  else none

mutual
/-- Fuel-driven parsing of one JSON value.  The fuel bounds the number of
nested parse frames; `weight` below measures the fuel a printed value
needs. -/
def parseValue : Nat → List Nat → Option (Json × List Nat)
  | 0, _ => none
  | _ + 1, [] => none
  | fuel + 1, c :: r =>
    if c = 110 then
      match r with
      | x :: y :: z :: rest =>
        if x = 117 ∧ y = 108 ∧ z = 108 then some (.null, rest) else none
      | _ => none
    else if c = 116 then
      match r with
      | x :: y :: z :: rest =>
        if x = 114 ∧ y = 117 ∧ z = 101 then some (.bool true, rest) else none
      | _ => none
    else if c = 102 then
      match r with
      | x :: y :: z :: w :: rest =>
        if x = 97 ∧ y = 108 ∧ z = 115 ∧ w = 101 then some (.bool false, rest) else none
      | _ => none
    else if c = 34 then (parseStringBody (r.length + 1) r).map (fun p => (.str p.1, p.2))
    else if c = 91 then
      match skipWs r with
      | [] => none
      | x :: rest =>
        if x = 93 then some (.arr .nil, rest)
        else (parseArrItems fuel (x :: rest)).map (fun p => (.arr p.1, p.2))
    else if c = 123 then
      match skipWs r with
      | [] => none
      | x :: rest =>
        if x = 125 then some (.obj .nil, rest)
        else (parseObjItems fuel (x :: rest)).map (fun p => (.obj p.1, p.2))
    else parseNumber c r
/-- Parsing of the non-empty item list of a JSON array, up to and
including the closing bracket. -/
def parseArrItems : Nat → List Nat → Option (JsonArr × List Nat)
  | 0, _ => none
  | fuel + 1, s =>
    (parseValue fuel s).bind (fun p =>
      match skipWs p.2 with
      | [] => none
      | x :: s3 =>
        if x = 44 then
          (parseArrItems fuel (skipWs s3)).map (fun q => (.cons p.1 q.1, q.2))
        else if x = 93 then some (.cons p.1 .nil, s3)
        else none)
/-- Parsing of the non-empty entry list of a JSON object, up to and
including the closing brace. -/
def parseObjItems : Nat → List Nat → Option (JsonObj × List Nat)
  | 0, _ => none
  | fuel + 1, s =>
    match s with
    | [] => none
    | c :: r =>
      if c = 34 then
        (parseStringBody (r.length + 1) r).bind (fun pk =>
          match skipWs pk.2 with
          | [] => none
          | x :: s3 =>
            if x = 58 then
              (parseValue fuel (skipWs s3)).bind (fun pv =>
                match skipWs pv.2 with
                | [] => none
                | y :: s7 =>
                  if y = 44 then
                    (parseObjItems fuel (skipWs s7)).map (fun q => (.cons pk.1 pv.1 q.1, q.2))
                  else if y = 125 then some (.cons pk.1 pv.1 .nil, s7)
                  else none)
            else none)
      else none
end

mutual
/-- Fuel needed to parse a printed JSON value. -/
def weight : Json → Nat
  | .null => 1
  | .bool _ => 1
  | .int _ => 1
  | .str _ => 1
  | .arr xs => 1 + weightArr xs
  | .obj xs => 1 + weightObj xs
/-- Fuel needed to parse printed array items. -/
def weightArr : JsonArr → Nat
  | .nil => 0
  | .cons h t => 1 + weight h + weightArr t
/-- Fuel needed to parse printed object entries. -/
def weightObj : JsonObj → Nat
  | .nil => 0
  | .cons _ v t => 1 + weight v + weightObj t
end

/-- Model of `json.loads` on a decoded character stream: parse one value
surrounded by optional whitespace, requiring full consumption. -/
def jsonLoads (chars : List Nat) : Option Json :=
  match parseValue (chars.length + 1) (skipWs chars) with
  | some (v, rest) => if skipWs rest = [] then some v else none
  | none => none

/-! ### Round-trip lemmas for the JSON model -/

lemma hexVal_hexDigit (d : Nat) (h : d < 16) : hexVal (hexDigit d) = some d := by
  unfold hexVal hexDigit
  by_cases h10 : d < 10
  · rw [if_pos h10, if_pos (by omega)]
    congr 1
    omega
  · rw [if_neg h10, if_neg (by omega), if_pos (by omega)]
    congr 1
    omega

lemma hexVal4_toHex4 (n : Nat) (h : n < 0x10000) :
    hexVal4 (hexDigit (n / 4096 % 16)) (hexDigit (n / 256 % 16))
      (hexDigit (n / 16 % 16)) (hexDigit (n % 16)) = some n := by
  unfold hexVal4
  rw [hexVal_hexDigit _ (by omega), hexVal_hexDigit _ (by omega),
    hexVal_hexDigit _ (by omega), hexVal_hexDigit _ (by omega)]
  show some (n / 4096 % 16 * 4096 + n / 256 % 16 * 256 + n / 16 % 16 * 16 + n % 16) = some n
  congr 1
  omega

lemma natToDigitsAux_all_digits :
    ∀ fuel n, n ≤ fuel → ∀ d ∈ natToDigitsAux fuel n, isDigitCp d = true := by
  intro fuel
  induction fuel with
  | zero =>
    intro n hn d hd
    obtain rfl : n = 0 := by omega
    simp only [natToDigitsAux, List.mem_singleton] at hd
    subst hd
    decide
  | succ f ih =>
    intro n hn d hd
    by_cases h : n < 10
    · simp only [natToDigitsAux, if_pos h, List.mem_singleton] at hd
      subst hd
      simp [isDigitCp]
      omega
    · simp only [natToDigitsAux, if_neg h, List.mem_append, List.mem_singleton] at hd
      rcases hd with hd | rfl
      · exact ih (n / 10) (by omega) d hd
      · simp [isDigitCp]
        omega

lemma natToDigits_all_digits (n : Nat) : ∀ d ∈ natToDigits n, isDigitCp d = true :=
  natToDigitsAux_all_digits n n le_rfl

lemma natToDigits_ne_nil (n : Nat) : natToDigits n ≠ [] := by
  unfold natToDigits
  cases n with
  | zero => simp [natToDigitsAux]
  | succ m =>
    simp only [natToDigitsAux]
    split <;> simp

lemma digitsToNat_append (xs : List Nat) :
    ∀ acc ys, digitsToNat (xs ++ ys) acc = digitsToNat ys (digitsToNat xs acc) := by
  induction xs with
  | nil => intro acc ys; rfl
  | cons d tl ih =>
    intro acc ys
    show digitsToNat (tl ++ ys) (acc * 10 + (d - 48)) =
      digitsToNat ys (digitsToNat tl (acc * 10 + (d - 48)))
    exact ih _ _

lemma digitsToNat_natToDigitsAux :
    ∀ fuel n acc, n ≤ fuel →
      digitsToNat (natToDigitsAux fuel n) acc =
        acc * 10 ^ (natToDigitsAux fuel n).length + n := by
  intro fuel
  induction fuel with
  | zero =>
    intro n acc hn
    obtain rfl : n = 0 := by omega
    simp [natToDigitsAux, digitsToNat]
  | succ f ih =>
    intro n acc hn
    by_cases h : n < 10
    · simp only [natToDigitsAux, if_pos h, digitsToNat, List.length_singleton, pow_one]
      omega
    · rw [show natToDigitsAux (f + 1) n = natToDigitsAux f (n / 10) ++ [48 + n % 10] by
        simp [natToDigitsAux, if_neg h]]
      rw [digitsToNat_append, List.length_append, List.length_singleton]
      rw [ih (n / 10) acc (by omega)]
      simp only [digitsToNat]
      have h48 : 48 + n % 10 - 48 = n % 10 := by omega
      rw [h48, pow_succ]
      have hr : acc * (10 ^ (natToDigitsAux f (n / 10)).length * 10) =
          acc * 10 ^ (natToDigitsAux f (n / 10)).length * 10 := by ring
      rw [hr]
      omega

lemma digitsToNat_natToDigits (n : Nat) : digitsToNat (natToDigits n) 0 = n := by
  simpa using digitsToNat_natToDigitsAux n n 0 le_rfl

lemma spanDigits_append (ds rest : List Nat) (hds : ∀ d ∈ ds, isDigitCp d = true)
    (hrest : ∀ c t, rest = c :: t → isDigitCp c = false) :
    spanDigits (ds ++ rest) = (ds, rest) := by
  induction ds with
  | nil =>
    simp only [List.nil_append]
    cases rest with
    | nil => rfl
    | cons c t => simp [spanDigits, hrest c t rfl]
  | cons d tl ih =>
    simp only [List.cons_append, spanDigits, hds d (List.mem_cons_self d tl), if_pos,
      List.append_eq]
    rw [ih (fun x hx => hds x (List.mem_cons_of_mem d hx))]

lemma skipWs_not_ws (c : Nat) (r : List Nat) (h : isJsonWs c = false) :
    skipWs (c :: r) = c :: r := by
  simp [skipWs, h]

lemma skipWs_sepSpace (sp : Bool) (l : List Nat) :
    skipWs ((if sp then [32] else []) ++ l) = skipWs l := by
  cases sp
  · simp
  · simp [skipWs, isJsonWs]

lemma printJson_head (ea sp : Bool) (v : Json) :
    ∃ c t, printJson ea sp v = c :: t ∧ isJsonWs c = false ∧ c ≠ 93 ∧ c ≠ 125 ∧ c ≠ 44 := by
  cases v with
  | null => exact ⟨110, _, rfl, by decide, by decide, by decide, by decide⟩
  | bool b =>
    cases b
    · exact ⟨102, _, rfl, by decide, by decide, by decide, by decide⟩
    · exact ⟨116, _, rfl, by decide, by decide, by decide, by decide⟩
  | int n =>
    by_cases h : n < 0
    · exact ⟨45, natToDigits n.natAbs, by simp [printJson, intToChars, h],
        by decide, by decide, by decide, by decide⟩
    · obtain ⟨c, cs, hd⟩ : ∃ c cs, natToDigits n.toNat = c :: cs := by
        cases hnd : natToDigits n.toNat with
        | nil => exact absurd hnd (natToDigits_ne_nil _)
        | cons c cs => exact ⟨c, cs, rfl⟩
      have hdig : isDigitCp c = true := natToDigits_all_digits n.toNat c (by rw [hd]; exact List.mem_cons_self c cs)
      have hc : 48 ≤ c ∧ c ≤ 57 := by simpa [isDigitCp, Bool.and_eq_true, decide_eq_true_eq] using hdig
      refine ⟨c, cs, ?_, ?_, by omega, by omega, by omega⟩
      · simp [printJson, intToChars, h, hd]
      · simp [isJsonWs]
        omega
  | str s => exact ⟨34, _, rfl, by decide, by decide, by decide, by decide⟩
  | arr xs =>
    cases xs
    · exact ⟨91, _, rfl, by decide, by decide, by decide, by decide⟩
    · exact ⟨91, _, rfl, by decide, by decide, by decide, by decide⟩
  | obj xs =>
    cases xs
    · exact ⟨123, _, rfl, by decide, by decide, by decide, by decide⟩
    · exact ⟨123, _, rfl, by decide, by decide, by decide, by decide⟩

lemma weight_pos (v : Json) : 1 ≤ weight v := by
  cases v <;> simp [weight]

lemma psb_quote (f : Nat) (r : List Nat) :
    parseStringBody (f + 1) (34 :: r) = some ([], r) := by
  simp [parseStringBody]

lemma psb_esc (f : Nat) (r : List Nat) (e ch : Nat)
    (h : (e, ch) = (34, 34) ∨ (e, ch) = (92, 92) ∨ (e, ch) = (110, 10) ∨
      (e, ch) = (114, 13) ∨ (e, ch) = (116, 9) ∨ (e, ch) = (98, 8) ∨ (e, ch) = (102, 12)) :
    parseStringBody (f + 1) (92 :: e :: r) = consM ch (parseStringBody f r) := by
  rcases h with h | h | h | h | h | h | h <;>
    (obtain ⟨rfl, rfl⟩ := Prod.mk.injEq .. ▸ h) <;> simp [parseStringBody]

lemma psb_u (f n : Nat) (r : List Nat) (hn : n < 0x10000)
    (hns : ¬ (0xD800 ≤ n ∧ n < 0xDC00)) :
    parseStringBody (f + 1) (92 :: 117 :: (toHex4 n ++ r)) = consM n (parseStringBody f r) := by
  simp only [toHex4, List.cons_append, List.nil_append, parseStringBody]
  simp [hexVal4_toHex4 n hn, hns]

lemma psb_u_pair_step (f a b c1 d a2 b2 c2 d2 h l : Nat) (r : List Nat)
    (hhexH : hexVal4 a b c1 d = some h) (hhi : 0xD800 ≤ h ∧ h < 0xDC00)
    (hhexL : hexVal4 a2 b2 c2 d2 = some l) (hlo : 0xDC00 ≤ l ∧ l < 0xE000) :
    parseStringBody (f + 1)
        (92 :: 117 :: a :: b :: c1 :: d :: 92 :: 117 :: a2 :: b2 :: c2 :: d2 :: r) =
      consM (0x10000 + (h - 0xD800) * 1024 + (l - 0xDC00)) (parseStringBody f r) := by
  simp [parseStringBody, hhexH, hhi, hhexL, hlo]

lemma psb_u_pair (f c : Nat) (r : List Nat) (hc1 : 0x10000 ≤ c) (hc2 : c < 0x110000) :
    parseStringBody (f + 1) (92 :: 117 :: (toHex4 (0xD800 + (c - 0x10000) / 1024) ++
      (92 :: 117 :: (toHex4 (0xDC00 + (c - 0x10000) % 1024) ++ r)))) =
      consM c (parseStringBody f r) := by
  rw [show toHex4 (0xD800 + (c - 0x10000) / 1024) ++
      (92 :: 117 :: (toHex4 (0xDC00 + (c - 0x10000) % 1024) ++ r)) =
      hexDigit ((0xD800 + (c - 0x10000) / 1024) / 4096 % 16) ::
      hexDigit ((0xD800 + (c - 0x10000) / 1024) / 256 % 16) ::
      hexDigit ((0xD800 + (c - 0x10000) / 1024) / 16 % 16) ::
      hexDigit ((0xD800 + (c - 0x10000) / 1024) % 16) ::
      92 :: 117 ::
      hexDigit ((0xDC00 + (c - 0x10000) % 1024) / 4096 % 16) ::
      hexDigit ((0xDC00 + (c - 0x10000) % 1024) / 256 % 16) ::
      hexDigit ((0xDC00 + (c - 0x10000) % 1024) / 16 % 16) ::
      hexDigit ((0xDC00 + (c - 0x10000) % 1024) % 16) :: r from by simp [toHex4]]
  rw [psb_u_pair_step f _ _ _ _ _ _ _ _ _ _ r
    (hexVal4_toHex4 (0xD800 + (c - 0x10000) / 1024) (by omega)) (by omega)
    (hexVal4_toHex4 (0xDC00 + (c - 0x10000) % 1024) (by omega)) (by omega)]
  rw [show 0x10000 + (0xD800 + (c - 0x10000) / 1024 - 0xD800) * 1024 +
      (0xDC00 + (c - 0x10000) % 1024 - 0xDC00) = c by omega]

lemma psb_raw (f c : Nat) (r : List Nat) (h34 : c ≠ 34) (h92 : c ≠ 92)
    (hge : ¬ c < 0x20) :
    parseStringBody (f + 1) (c :: r) = consM c (parseStringBody f r) := by
  simp [parseStringBody, h34, h92, hge]

lemma parseStringBody_escape (ea : Bool) (s : List Nat) (hs : ∀ c ∈ s, IsScalar c) :
    ∀ fuel rest, s.length < fuel →
      parseStringBody fuel (escapeString ea s ++ 34 :: rest) = some (s, rest) := by
  induction s with
  | nil =>
    intro fuel rest hfuel
    obtain ⟨f, rfl⟩ : ∃ f, fuel = f + 1 := ⟨fuel - 1, by omega⟩
    simp only [escapeString, List.map_nil, List.flatten_nil, List.nil_append]
    exact psb_quote f rest
  | cons c tl ih =>
    intro fuel rest hfuel
    obtain ⟨f, rfl⟩ : ∃ f, fuel = f + 1 := ⟨fuel - 1, by omega⟩
    have hc : IsScalar c := hs c (List.mem_cons_self c tl)
    have htl : ∀ x ∈ tl, IsScalar x := fun x hx => hs x (List.mem_cons_of_mem c hx)
    have hIH := ih htl f rest (by simp at hfuel ⊢; omega)
    have hE : escapeString ea (c :: tl) ++ 34 :: rest =
        escapeChar ea c ++ (escapeString ea tl ++ 34 :: rest) := by
      simp [escapeString]
    rw [hE]
    by_cases h34 : c = 34
    · subst h34
      rw [show escapeChar ea 34 = [92, 34] from rfl]
      rw [List.cons_append, List.cons_append, List.nil_append,
        psb_esc f _ 34 34 (by simp), hIH]
      rfl
    by_cases h92 : c = 92
    · subst h92
      rw [show escapeChar ea 92 = [92, 92] from rfl]
      rw [List.cons_append, List.cons_append, List.nil_append,
        psb_esc f _ 92 92 (by simp), hIH]
      rfl
    by_cases h10 : c = 10
    · subst h10
      rw [show escapeChar ea 10 = [92, 110] from rfl]
      rw [List.cons_append, List.cons_append, List.nil_append,
        psb_esc f _ 110 10 (by simp), hIH]
      rfl
    by_cases h13 : c = 13
    · subst h13
      rw [show escapeChar ea 13 = [92, 114] from rfl]
      rw [List.cons_append, List.cons_append, List.nil_append,
        psb_esc f _ 114 13 (by simp), hIH]
      rfl
    by_cases h9 : c = 9
    · subst h9
      rw [show escapeChar ea 9 = [92, 116] from rfl]
      rw [List.cons_append, List.cons_append, List.nil_append,
        psb_esc f _ 116 9 (by simp), hIH]
      rfl
    by_cases h8 : c = 8
    · subst h8
      rw [show escapeChar ea 8 = [92, 98] from rfl]
      rw [List.cons_append, List.cons_append, List.nil_append,
        psb_esc f _ 98 8 (by simp), hIH]
      rfl
    by_cases h12 : c = 12
    · subst h12
      rw [show escapeChar ea 12 = [92, 102] from rfl]
      rw [List.cons_append, List.cons_append, List.nil_append,
        psb_esc f _ 102 12 (by simp), hIH]
      rfl
    by_cases hlow : c < 0x20
    · have hesc : escapeChar ea c = 92 :: 117 :: toHex4 c := by
        unfold escapeChar
        rw [if_neg h34, if_neg h92, if_neg h10, if_neg h13, if_neg h9, if_neg h8,
          if_neg h12, if_pos hlow]
      rw [hesc, List.cons_append, List.cons_append,
        psb_u f c _ (by omega) (by omega), hIH]
      rfl
    by_cases hhi : ea = true ∧ 0x7E < c
    · by_cases hbmp : c < 0x10000
      · have hesc : escapeChar ea c = 92 :: 117 :: toHex4 c := by
          unfold escapeChar
          rw [if_neg h34, if_neg h92, if_neg h10, if_neg h13, if_neg h9, if_neg h8,
            if_neg h12, if_neg hlow, if_pos (by simp [hhi.1, hhi.2]), if_pos hbmp]
        have hns : ¬ (0xD800 ≤ c ∧ c < 0xDC00) := by
          rcases hc.2 with h | h <;> omega
        rw [hesc, List.cons_append, List.cons_append,
          psb_u f c _ (by omega) hns, hIH]
        rfl
      · have hesc : escapeChar ea c =
            92 :: 117 :: toHex4 (0xD800 + (c - 0x10000) / 1024) ++
              (92 :: 117 :: toHex4 (0xDC00 + (c - 0x10000) % 1024)) := by
          unfold escapeChar
          rw [if_neg h34, if_neg h92, if_neg h10, if_neg h13, if_neg h9, if_neg h8,
            if_neg h12, if_neg hlow, if_pos (by simp [hhi.1, hhi.2]), if_neg hbmp]
        rw [hesc]
        have hshape : (92 :: 117 :: toHex4 (0xD800 + (c - 0x10000) / 1024) ++
              (92 :: 117 :: toHex4 (0xDC00 + (c - 0x10000) % 1024))) ++
              (escapeString ea tl ++ 34 :: rest) =
            92 :: 117 :: (toHex4 (0xD800 + (c - 0x10000) / 1024) ++
              (92 :: 117 :: (toHex4 (0xDC00 + (c - 0x10000) % 1024) ++
                (escapeString ea tl ++ 34 :: rest)))) := by
          simp
        rw [hshape, psb_u_pair f c _ (by omega) hc.1, hIH]
        rfl
    · have hesc : escapeChar ea c = [c] := by
        unfold escapeChar
        rw [if_neg h34, if_neg h92, if_neg h10, if_neg h13, if_neg h9, if_neg h8,
          if_neg h12, if_neg hlow, if_neg (by simpa using hhi)]
      rw [hesc, List.cons_append, List.nil_append,
        psb_raw f c _ h34 h92 hlow, hIH]
      rfl

lemma scalarStr_forall (s : List Nat) (h : scalarStr s = true) : ∀ c ∈ s, IsScalar c := by
  intro c hc
  have := List.all_eq_true.mp h c hc
  simpa using this

set_option maxHeartbeats 1000000 in
lemma escapeString_length_ge (ea : Bool) (s : List Nat) :
    s.length ≤ (escapeString ea s).length := by
  induction s with
  | nil => simp [escapeString]
  | cons c tl ih =>
    have hE : escapeString ea (c :: tl) = escapeChar ea c ++ escapeString ea tl := by
      simp [escapeString]
    have hpos : 1 ≤ (escapeChar ea c).length := by
      unfold escapeChar
      split_ifs <;> simp [toHex4]
    rw [hE]
    simp only [List.length_append, List.length_cons]
    omega

lemma printArrTail_shape (ea sp : Bool) (t : JsonArr) :
    printArrTail ea sp t = [] ∨
      ∃ u, printArrTail ea sp t = 44 :: u := by
  cases t with
  | nil => exact Or.inl rfl
  | cons h2 t2 =>
    refine Or.inr ⟨(if sp then [32] else []) ++ (printJson ea sp h2 ++ printArrTail ea sp t2), ?_⟩
    simp [printArrTail, itemSep]

lemma printObjTail_shape (ea sp : Bool) (t : JsonObj) :
    printObjTail ea sp t = [] ∨
      ∃ u, printObjTail ea sp t = 44 :: u := by
  cases t with
  | nil => exact Or.inl rfl
  | cons k2 v2 t2 =>
    refine Or.inr ⟨(if sp then [32] else []) ++ (printString ea k2 ++ (kvSep sp ++
      (printJson ea sp v2 ++ printObjTail ea sp t2))), ?_⟩
    simp [printObjTail, itemSep]

lemma parseValue_int (f : Nat) (n : Int) (rest : List Nat)
    (hrest : ∀ c t, rest = c :: t → isDigitCp c = false) :
    parseValue (f + 1) (intToChars n ++ rest) = some (.int n, rest) := by
  by_cases hn : n < 0
  · obtain ⟨c0, cs, hD⟩ : ∃ c0 cs, natToDigits n.natAbs = c0 :: cs := by
      cases hd : natToDigits n.natAbs with
      | nil => exact absurd hd (natToDigits_ne_nil _)
      | cons c0 cs => exact ⟨c0, cs, rfl⟩
    have hall : ∀ d ∈ natToDigits n.natAbs, isDigitCp d = true := natToDigits_all_digits _
    have hspan : spanDigits (natToDigits n.natAbs ++ rest) = (natToDigits n.natAbs, rest) :=
      spanDigits_append _ _ hall hrest
    have hDval : digitsToNat (c0 :: cs) 0 = n.natAbs := by
      rw [← hD, digitsToNat_natToDigits]
    have hshape : intToChars n ++ rest = 45 :: (natToDigits n.natAbs ++ rest) := by
      simp [intToChars, hn]
    rw [hshape]
    have hval : parseNumber 45 (natToDigits n.natAbs ++ rest) = some (.int n, rest) := by
      unfold parseNumber
      rw [if_pos rfl, hspan, hD]
      show some (Json.int (-(digitsToNat (c0 :: cs) 0 : Nat)), rest) = some (Json.int n, rest)
      rw [hDval]
      rw [show -((n.natAbs : Nat) : Int) = n by omega]
    simp [parseValue, hval]
  · obtain ⟨c0, cs, hD⟩ : ∃ c0 cs, natToDigits n.toNat = c0 :: cs := by
      cases hd : natToDigits n.toNat with
      | nil => exact absurd hd (natToDigits_ne_nil _)
      | cons c0 cs => exact ⟨c0, cs, rfl⟩
    have hall : ∀ d ∈ natToDigits n.toNat, isDigitCp d = true := natToDigits_all_digits _
    have hdig0 : isDigitCp c0 = true := hall c0 (by rw [hD]; exact List.mem_cons_self c0 cs)
    have hb : 48 ≤ c0 ∧ c0 ≤ 57 := by
      simpa [isDigitCp, Bool.and_eq_true, decide_eq_true_eq] using hdig0
    have hcs : ∀ d ∈ cs, isDigitCp d = true := by
      intro d hd
      exact hall d (by rw [hD]; exact List.mem_cons_of_mem c0 hd)
    have hspan : spanDigits (cs ++ rest) = (cs, rest) := spanDigits_append _ _ hcs hrest
    have hDval : digitsToNat (c0 :: cs) 0 = n.toNat := by
      rw [← hD, digitsToNat_natToDigits]
    have hshape : intToChars n ++ rest = c0 :: (cs ++ rest) := by
      simp [intToChars, hn, hD]
    rw [hshape]
    have hval : parseNumber c0 (cs ++ rest) = some (.int n, rest) := by
      unfold parseNumber
      rw [if_neg (by omega), if_pos hdig0]
      show some (Json.int (digitsToNat (c0 :: (spanDigits (cs ++ rest)).1) 0 : Nat),
        (spanDigits (cs ++ rest)).2) = some (Json.int n, rest)
      rw [hspan]
      show some (Json.int (digitsToNat (c0 :: cs) 0 : Nat), rest) = some (Json.int n, rest)
      rw [hDval]
      rw [show ((n.toNat : Nat) : Int) = n by omega]
    have h110 : ¬ c0 = 110 := by omega
    have h116 : ¬ c0 = 116 := by omega
    have h102 : ¬ c0 = 102 := by omega
    have h34 : ¬ c0 = 34 := by omega
    have h91 : ¬ c0 = 91 := by omega
    have h123 : ¬ c0 = 123 := by omega
    simp [parseValue, h110, h116, h102, h34, h91, h123, hval]

lemma pv_true (f : Nat) (rest : List Nat) :
    parseValue (f + 1) (116 :: 114 :: 117 :: 101 :: rest) = some (.bool true, rest) := by
  simp [parseValue]

lemma pv_false (f : Nat) (rest : List Nat) :
    parseValue (f + 1) (102 :: 97 :: 108 :: 115 :: 101 :: rest) = some (.bool false, rest) := by
  simp [parseValue]

lemma pv_str (f : Nat) (r : List Nat) :
    parseValue (f + 1) (34 :: r) =
      (parseStringBody (r.length + 1) r).map (fun p => (.str p.1, p.2)) := by
  simp [parseValue]

lemma pv_arr_nil (f : Nat) (r rest : List Nat) (h : skipWs r = 93 :: rest) :
    parseValue (f + 1) (91 :: r) = some (.arr .nil, rest) := by
  simp [parseValue, h]

lemma pv_arr_go (f : Nat) (r : List Nat) (x : Nat) (rest : List Nat)
    (h : skipWs r = x :: rest) (hx : ¬ x = 93) :
    parseValue (f + 1) (91 :: r) =
      (parseArrItems f (x :: rest)).map (fun p => (.arr p.1, p.2)) := by
  simp [parseValue, h, hx]

lemma pv_obj_nil (f : Nat) (r rest : List Nat) (h : skipWs r = 125 :: rest) :
    parseValue (f + 1) (123 :: r) = some (.obj .nil, rest) := by
  simp [parseValue, h]

lemma pv_obj_go (f : Nat) (r : List Nat) (x : Nat) (rest : List Nat)
    (h : skipWs r = x :: rest) (hx : ¬ x = 125) :
    parseValue (f + 1) (123 :: r) =
      (parseObjItems f (x :: rest)).map (fun p => (.obj p.1, p.2)) := by
  simp [parseValue, h, hx]

lemma pa_go (f : Nat) (s s1 : List Nat) (v : Json) (hv : parseValue f s = some (v, s1)) :
    parseArrItems (f + 1) s =
      (match skipWs s1 with
      | [] => none
      | x :: s3 =>
        if x = 44 then
          (parseArrItems f (skipWs s3)).map (fun q => (JsonArr.cons v q.1, q.2))
        else if x = 93 then some (JsonArr.cons v .nil, s3)
        else none) := by
  simp [parseArrItems, hv]

lemma po_key (f : Nat) (r : List Nat) (k s1 : List Nat)
    (hk : parseStringBody (r.length + 1) r = some (k, s1)) :
    parseObjItems (f + 1) (34 :: r) =
      (match skipWs s1 with
      | [] => none
      | x :: s3 =>
        if x = 58 then
          (parseValue f (skipWs s3)).bind (fun pv =>
            match skipWs pv.2 with
            | [] => none
            | y :: s7 =>
              if y = 44 then
                (parseObjItems f (skipWs s7)).map (fun q => (JsonObj.cons k pv.1 q.1, q.2))
              else if y = 125 then some (JsonObj.cons k pv.1 .nil, s7)
              else none)
        else none) := by
  simp [parseObjItems, hk]

lemma weight_le_print_length (ea sp : Bool) :
    ∀ n : Nat,
      (∀ v : Json, weight v ≤ n → weight v ≤ (printJson ea sp v).length) ∧
      (∀ xs : JsonArr, weightArr xs ≤ n → weightArr xs ≤ (printArrTail ea sp xs).length) ∧
      (∀ os : JsonObj, weightObj os ≤ n → weightObj os ≤ (printObjTail ea sp os).length) := by
  intro n
  induction n using Nat.strong_induction_on with
  | _ n ih =>
    refine ⟨?_, ?_, ?_⟩
    · intro v hv
      cases v with
      | null => simp [weight, printJson]
      | bool b => cases b <;> simp [weight, printJson]
      | int m => simp [weight, printJson]; have := natToDigits_ne_nil m.natAbs;
                 have := natToDigits_ne_nil m.toNat;
                 by_cases h : m < 0 <;>
                   simp [intToChars, h] <;>
                   cases hd : natToDigits m.natAbs <;> cases hd2 : natToDigits m.toNat <;>
                   simp_all
      | str s => simp [weight, printJson, printString]
      | arr xs =>
        cases xs with
        | nil => simp [weight, weightArr, printJson]
        | cons h t =>
          have hwv : weight h ≤ n - 1 := by
            simp [weight, weightArr] at hv
            omega
          have hwt : weightArr t ≤ n - 1 := by
            simp [weight, weightArr] at hv
            omega
          have hn1 : n - 1 < n := by
            have := weight_pos h
            simp [weight, weightArr] at hv
            omega
          have hA := (ih (n - 1) hn1).1 h hwv
          have hB := (ih (n - 1) hn1).2.1 t hwt
          simp only [weight, weightArr, printJson, List.length_cons, List.length_append,
            List.length_singleton]
          omega
      | obj os =>
        cases os with
        | nil => simp [weight, weightObj, printJson]
        | cons k v t =>
          have hwv : weight v ≤ n - 1 := by
            simp [weight, weightObj] at hv
            omega
          have hwt : weightObj t ≤ n - 1 := by
            simp [weight, weightObj] at hv
            omega
          have hn1 : n - 1 < n := by
            have := weight_pos v
            simp [weight, weightObj] at hv
            omega
          have hA := (ih (n - 1) hn1).1 v hwv
          have hC := (ih (n - 1) hn1).2.2 t hwt
          simp only [weight, weightObj, printJson, printString, kvSep, List.length_cons,
            List.length_append, List.length_singleton]
          omega
    · intro xs hxs
      cases xs with
      | nil => simp [weightArr, printArrTail]
      | cons h t =>
        have hwv : weight h ≤ n - 1 := by
          simp [weightArr] at hxs
          omega
        have hwt : weightArr t ≤ n - 1 := by
          simp [weightArr] at hxs
          omega
        have hn1 : n - 1 < n := by
          have := weight_pos h
          simp [weightArr] at hxs
          omega
        have hA := (ih (n - 1) hn1).1 h hwv
        have hB := (ih (n - 1) hn1).2.1 t hwt
        simp only [weightArr, printArrTail, itemSep, List.length_append, List.length_cons]
        cases sp <;> simp <;> omega
    · intro os hos
      cases os with
      | nil => simp [weightObj, printObjTail]
      | cons k v t =>
        have hwv : weight v ≤ n - 1 := by
          simp [weightObj] at hos
          omega
        have hwt : weightObj t ≤ n - 1 := by
          simp [weightObj] at hos
          omega
        have hn1 : n - 1 < n := by
          have := weight_pos v
          simp [weightObj] at hos
          omega
        have hA := (ih (n - 1) hn1).1 v hwv
        have hC := (ih (n - 1) hn1).2.2 t hwt
        simp only [weightObj, printObjTail, itemSep, printString, kvSep, List.length_append,
          List.length_cons]
        cases sp <;> simp <;> omega

lemma parse_print (ea sp : Bool) :
    ∀ fuel : Nat,
      (∀ (v : Json) (rest : List Nat), wfJson v = true → weight v ≤ fuel →
        (∀ c t, rest = c :: t → isDigitCp c = false) →
        parseValue fuel (printJson ea sp v ++ rest) = some (v, rest)) ∧
      (∀ (h : Json) (t : JsonArr) (rest : List Nat), wfJson h = true → wfArr t = true →
        weightArr (.cons h t) ≤ fuel →
        parseArrItems fuel (printJson ea sp h ++ (printArrTail ea sp t ++ 93 :: rest)) =
          some (.cons h t, rest)) ∧
      (∀ (k : List Nat) (v : Json) (t : JsonObj) (rest : List Nat), scalarStr k = true →
        wfJson v = true → wfObj t = true → weightObj (.cons k v t) ≤ fuel →
        parseObjItems fuel (printString ea k ++ (kvSep sp ++ (printJson ea sp v ++
          (printObjTail ea sp t ++ 125 :: rest)))) = some (.cons k v t, rest)) := by
  intro fuel
  induction fuel using Nat.strong_induction_on with
  | _ fuel ih =>
    match fuel with
    | 0 =>
      refine ⟨?_, ?_, ?_⟩
      · intro v rest _ hw _
        have := weight_pos v
        omega
      · intro h t rest _ _ hw
        have := weight_pos h
        simp [weightArr] at hw
      · intro k v t rest _ _ _ hw
        have := weight_pos v
        simp [weightObj] at hw
    | f + 1 =>
      have ihf := ih f (by omega)
      refine ⟨?_, ?_, ?_⟩
      -- parseValue on a printed value
      · intro v rest hwf hw hrest
        cases v with
        | null =>
          rw [show printJson ea sp .null ++ rest = 110 :: 117 :: 108 :: 108 :: rest by
            simp [printJson]]
          simp [parseValue]
        | bool b =>
          cases b
          · rw [show printJson ea sp (.bool false) ++ rest =
                102 :: 97 :: 108 :: 115 :: 101 :: rest by simp [printJson]]
            exact pv_false f rest
          · rw [show printJson ea sp (.bool true) ++ rest =
                116 :: 114 :: 117 :: 101 :: rest by simp [printJson]]
            exact pv_true f rest
        | int m =>
          rw [show printJson ea sp (.int m) ++ rest = intToChars m ++ rest from rfl]
          exact parseValue_int f m rest hrest
        | str s =>
          have hsc : ∀ c ∈ s, IsScalar c := scalarStr_forall s (by simpa [wfJson] using hwf)
          rw [show printJson ea sp (.str s) ++ rest =
              34 :: (escapeString ea s ++ 34 :: rest) by simp [printJson, printString]]
          rw [pv_str f _]
          have hlen : s.length < (escapeString ea s ++ 34 :: rest).length + 1 := by
            have := escapeString_length_ge ea s
            simp only [List.length_append, List.length_cons]
            omega
          rw [parseStringBody_escape ea s hsc _ rest hlen]
          rfl
        | arr xs =>
          cases xs with
          | nil =>
            rw [show printJson ea sp (.arr .nil) ++ rest = 91 :: 93 :: rest by
              simp [printJson]]
            exact pv_arr_nil f _ rest (skipWs_not_ws 93 rest (by decide))
          | cons h t =>
            have hwf2 : wfJson h = true ∧ wfArr t = true := by
              simpa [wfJson, wfArr] using hwf
            have hw2 : weightArr (.cons h t) ≤ f := by
              simp [weight, weightArr] at hw ⊢
              omega
            obtain ⟨c0, t0, hhead, hnws, h93, _, _⟩ := printJson_head ea sp h
            rw [show printJson ea sp (.arr (.cons h t)) ++ rest =
                91 :: (printJson ea sp h ++ (printArrTail ea sp t ++ 93 :: rest)) by
              simp [printJson]]
            have hskip : skipWs (printJson ea sp h ++ (printArrTail ea sp t ++ 93 :: rest)) =
                c0 :: (t0 ++ (printArrTail ea sp t ++ 93 :: rest)) := by
              rw [hhead, List.cons_append]
              exact skipWs_not_ws _ _ hnws
            rw [pv_arr_go f _ c0 _ hskip h93]
            rw [show c0 :: (t0 ++ (printArrTail ea sp t ++ 93 :: rest)) =
                printJson ea sp h ++ (printArrTail ea sp t ++ 93 :: rest) by
              rw [hhead, List.cons_append]]
            rw [ihf.2.1 h t rest hwf2.1 hwf2.2 hw2]
            rfl
        | obj os =>
          cases os with
          | nil =>
            rw [show printJson ea sp (.obj .nil) ++ rest = 123 :: 125 :: rest by
              simp [printJson]]
            exact pv_obj_nil f _ rest (skipWs_not_ws 125 rest (by decide))
          | cons k v t =>
            have hwf2 : scalarStr k = true ∧ wfJson v = true ∧ wfObj t = true := by
              simpa [wfJson, wfObj, Bool.and_eq_true, and_assoc] using hwf
            have hw2 : weightObj (.cons k v t) ≤ f := by
              simp [weight, weightObj] at hw ⊢
              omega
            rw [show printJson ea sp (.obj (.cons k v t)) ++ rest =
                123 :: (printString ea k ++ (kvSep sp ++ (printJson ea sp v ++
                  (printObjTail ea sp t ++ 125 :: rest)))) by
              simp [printJson]]
            have hskip : skipWs (printString ea k ++ (kvSep sp ++ (printJson ea sp v ++
                (printObjTail ea sp t ++ 125 :: rest)))) =
                34 :: (escapeString ea k ++ 34 :: (kvSep sp ++ (printJson ea sp v ++
                  (printObjTail ea sp t ++ 125 :: rest)))) := by
              rw [show printString ea k ++ (kvSep sp ++ (printJson ea sp v ++
                  (printObjTail ea sp t ++ 125 :: rest))) =
                  34 :: (escapeString ea k ++ 34 :: (kvSep sp ++ (printJson ea sp v ++
                    (printObjTail ea sp t ++ 125 :: rest)))) by simp [printString]]
              exact skipWs_not_ws _ _ (by decide)
            rw [pv_obj_go f _ 34 _ hskip (by decide)]
            rw [show (34 : Nat) :: (escapeString ea k ++ 34 :: (kvSep sp ++ (printJson ea sp v ++
                (printObjTail ea sp t ++ 125 :: rest)))) =
                printString ea k ++ (kvSep sp ++ (printJson ea sp v ++
                  (printObjTail ea sp t ++ 125 :: rest))) by simp [printString]]
            rw [ihf.2.2 k v t rest hwf2.1 hwf2.2.1 hwf2.2.2 hw2]
            rfl
      -- parseArrItems on printed items
      · intro h t rest hwfh hwft hw
        have hwh : weight h ≤ f := by
          simp [weightArr] at hw
          omega
        have hnum : ∀ c t2, printArrTail ea sp t ++ 93 :: rest = c :: t2 →
            isDigitCp c = false := by
          intro c t2 heq
          rcases printArrTail_shape ea sp t with hsh | ⟨u, hsh⟩ <;> rw [hsh] at heq
          · simp only [List.nil_append, List.cons.injEq] at heq
            rw [← heq.1]
            decide
          · simp only [List.cons_append, List.cons.injEq] at heq
            rw [← heq.1]
            decide
        have hA := ihf.1 h (printArrTail ea sp t ++ 93 :: rest) hwfh hwh hnum
        rw [pa_go f _ _ h hA]
        cases t with
        | nil =>
          rw [show printArrTail ea sp JsonArr.nil ++ 93 :: rest = 93 :: rest by
            simp [printArrTail]]
          rw [skipWs_not_ws 93 rest (by decide)]
          simp
        | cons h2 t2 =>
          have hwf22 : wfJson h2 = true ∧ wfArr t2 = true := by
            simpa [wfArr, Bool.and_eq_true] using hwft
          have hw22 : weightArr (.cons h2 t2) ≤ f := by
            have := weight_pos h
            simp [weightArr] at hw ⊢
            omega
          rw [show printArrTail ea sp (JsonArr.cons h2 t2) ++ 93 :: rest =
              44 :: ((if sp then [32] else []) ++ (printJson ea sp h2 ++
                (printArrTail ea sp t2 ++ 93 :: rest))) by
            simp [printArrTail, itemSep]]
          rw [skipWs_not_ws 44 _ (by decide)]
          obtain ⟨c1, t1, hh1, hnws1, _, _, _⟩ := printJson_head ea sp h2
          have hskip2 : skipWs ((if sp then [32] else []) ++ (printJson ea sp h2 ++
              (printArrTail ea sp t2 ++ 93 :: rest))) =
              printJson ea sp h2 ++ (printArrTail ea sp t2 ++ 93 :: rest) := by
            rw [skipWs_sepSpace, hh1, List.cons_append]
            exact skipWs_not_ws _ _ hnws1
          have hB2 := ihf.2.1 h2 t2 rest hwf22.1 hwf22.2 hw22
          simp [hskip2, hB2]
      -- parseObjItems on printed entries
      · intro k v t rest hk hwv hwt hw
        have hsck : ∀ c ∈ k, IsScalar c := scalarStr_forall k hk
        have hwv2 : weight v ≤ f := by
          simp [weightObj] at hw
          omega
        rw [show printString ea k ++ (kvSep sp ++ (printJson ea sp v ++
            (printObjTail ea sp t ++ 125 :: rest))) =
            34 :: (escapeString ea k ++ 34 :: (kvSep sp ++ (printJson ea sp v ++
              (printObjTail ea sp t ++ 125 :: rest)))) by simp [printString]]
        have hlen : k.length < (escapeString ea k ++ 34 :: (kvSep sp ++ (printJson ea sp v ++
            (printObjTail ea sp t ++ 125 :: rest)))).length + 1 := by
          have := escapeString_length_ge ea k
          simp only [List.length_append, List.length_cons]
          omega
        rw [po_key f _ k _ (parseStringBody_escape ea k hsck _ _ hlen)]
        rw [show kvSep sp ++ (printJson ea sp v ++ (printObjTail ea sp t ++ 125 :: rest)) =
            58 :: ((if sp then [32] else []) ++ (printJson ea sp v ++
              (printObjTail ea sp t ++ 125 :: rest))) by simp [kvSep]]
        rw [skipWs_not_ws 58 _ (by decide)]
        obtain ⟨c1, t1, hh1, hnws1, _, _, _⟩ := printJson_head ea sp v
        have hskip3 : skipWs ((if sp then [32] else []) ++ (printJson ea sp v ++
            (printObjTail ea sp t ++ 125 :: rest))) =
            printJson ea sp v ++ (printObjTail ea sp t ++ 125 :: rest) := by
          rw [skipWs_sepSpace, hh1, List.cons_append]
          exact skipWs_not_ws _ _ hnws1
        have hnum : ∀ c t2, printObjTail ea sp t ++ 125 :: rest = c :: t2 →
            isDigitCp c = false := by
          intro c t2 heq
          rcases printObjTail_shape ea sp t with hsh | ⟨u, hsh⟩ <;> rw [hsh] at heq
          · simp only [List.nil_append, List.cons.injEq] at heq
            rw [← heq.1]
            decide
          · simp only [List.cons_append, List.cons.injEq] at heq
            rw [← heq.1]
            decide
        have hA := ihf.1 v (printObjTail ea sp t ++ 125 :: rest) hwv hwv2 hnum
        cases t with
        | nil =>
          have htail : printObjTail ea sp JsonObj.nil ++ 125 :: rest = 125 :: rest := by
            simp [printObjTail]
          rw [htail] at hA hskip3
          rw [htail]
          simp [hskip3, hA, skipWs_not_ws 125 rest (by decide)]
        | cons k2 v2 t2 =>
          have hwf22 : scalarStr k2 = true ∧ wfJson v2 = true ∧ wfObj t2 = true := by
            simpa [wfObj, Bool.and_eq_true, and_assoc] using hwt
          have hw22 : weightObj (.cons k2 v2 t2) ≤ f := by
            have := weight_pos v
            simp [weightObj] at hw ⊢
            omega
          have htail : printObjTail ea sp (JsonObj.cons k2 v2 t2) ++ 125 :: rest =
              44 :: ((if sp then [32] else []) ++ (printString ea k2 ++ (kvSep sp ++
                (printJson ea sp v2 ++ (printObjTail ea sp t2 ++ 125 :: rest))))) := by
            simp [printObjTail, itemSep]
          rw [htail] at hA
          have hskip4 : skipWs ((if sp then [32] else []) ++ (printString ea k2 ++ (kvSep sp ++
              (printJson ea sp v2 ++ (printObjTail ea sp t2 ++ 125 :: rest))))) =
              printString ea k2 ++ (kvSep sp ++ (printJson ea sp v2 ++
                (printObjTail ea sp t2 ++ 125 :: rest))) := by
            rw [skipWs_sepSpace]
            rw [show printString ea k2 ++ (kvSep sp ++ (printJson ea sp v2 ++
                (printObjTail ea sp t2 ++ 125 :: rest))) =
                34 :: (escapeString ea k2 ++ 34 :: (kvSep sp ++ (printJson ea sp v2 ++
                  (printObjTail ea sp t2 ++ 125 :: rest)))) by simp [printString]]
            exact skipWs_not_ws _ _ (by decide)
          rw [htail] at hskip3
          rw [htail]
          have hC2 := ihf.2.2 k2 v2 t2 rest hwf22.1 hwf22.2.1 hwf22.2.2 hw22
          simp [hskip3, hA, skipWs_not_ws 44 _ (by decide), hskip4, hC2]

lemma jsonLoads_print (ea sp : Bool) (v : Json) (hwf : wfJson v = true) :
    jsonLoads (printJson ea sp v) = some v := by
  unfold jsonLoads
  obtain ⟨c0, t0, hh, hnws, _, _, _⟩ := printJson_head ea sp v
  have hskip : skipWs (printJson ea sp v) = printJson ea sp v := by
    rw [hh]
    exact skipWs_not_ws _ _ hnws
  rw [hskip]
  have hw : weight v ≤ (printJson ea sp v).length + 1 := by
    have := (weight_le_print_length ea sp (weight v)).1 v le_rfl
    omega
  have hA := (parse_print ea sp ((printJson ea sp v).length + 1)).1 v [] hwf hw
    (by intro c t h; cases h)
  rw [List.append_nil] at hA
  rw [hA]
  simp [skipWs]

/-! ## Codec layer (model of `tacoq/core/encoding`)

Each Python codec class is modeled by a function on its declared value
domain; a raised `EncodingError` becomes the `.error` case.  Python
strings are code-point lists; Python byte strings are byte lists.
-/

/-- Python exception value, as the worker's broad `except Exception`
observes it: the class name and `str(e)`, both as code-point strings. -/
structure PyException where
  ty : List Nat
  msg : List Nat
deriving DecidableEq

/-- Code points of `"EncodingError"`, the class name of
`tacoq.core.encoding.models.EncodingError`. -/
def encodingErrorName : List Nat := [69, 110, 99, 111, 100, 105, 110, 103, 69, 114, 114, 111, 114]

/-- An `EncodingError` as caught by the runtime (its message text is not
load-bearing for any claim and is abstracted to the empty string). -/
def encodingError : PyException := ⟨encodingErrorName, []⟩

/-- Model of `PassthroughEncoder.encode`: returns the input bytes unchanged. -/
def passthroughEncode (data : List Nat) : List Nat := data

/-- Model of `PassthroughDecoder.decode`: returns the input bytes unchanged. -/
def passthroughDecode (data : List Nat) : List Nat := data

/-- Model of `StringEncoder.encode`: `data.encode("utf-8")`, with failures
(lone surrogates) wrapped into `EncodingError`. -/
def stringEncode (data : List Nat) : Except PyException (List Nat) :=
  if data.all (fun c => decide (IsScalar c)) then .ok (utf8Encode data)
  else .error encodingError

/-- Model of `StringDecoder.decode`: `data.decode("utf-8")`, with failures
wrapped into `EncodingError`. -/
def stringDecode (data : List Nat) : Except PyException (List Nat) :=
  match utf8Decode data with
  | some s => .ok s
  | none => .error encodingError

/-- Model of `JsonDictEncoder.encode`: `json.dumps(data).encode("utf-8")`
(`json.dumps` defaults: ensure_ascii and spaced separators).  All values
of the modeled JSON domain are serializable, so no error case arises. -/
def jsonDictEncode (data : Json) : List Nat := utf8Encode (printJson true true data)

/-- Model of `JsonDictDecoder.decode`: `json.loads(data.decode("utf-8"))`,
with failures wrapped into `EncodingError`.  As in Python, the parsed
value is returned without checking that it is an object. -/
def jsonDictDecode (data : List Nat) : Except PyException Json :=
  match utf8Decode data with
  | none => .error encodingError
  | some chars =>
    match jsonLoads chars with
    | none => .error encodingError
    | some v => .ok v

/-- Field type of a pydantic model field, for the schema-validated codec. -/
inductive FieldTy where
  | intF : FieldTy
  | strF : FieldTy
  | boolF : FieldTy
deriving DecidableEq

/-- A pydantic model class, reduced to its field schema (name and type,
in declaration order). -/
def PydSchema : Type := List (List Nat × FieldTy)

/-- Whether a JSON value matches a field type. -/
def tyMatch : FieldTy → Json → Bool
  | .intF, .int _ => true
  | .strF, .str _ => true
  | .boolF, .bool _ => true
  | _, _ => false

/-- First binding of a key in a JSON object (Python dict lookup). -/
def objLookup : JsonObj → List Nat → Option Json
  | .nil, _ => none
  | .cons k v t, key => if k = key then some v else objLookup t key

/-- Model of pydantic validation of a parsed JSON object against a model
schema: every schema field must be present with a matching type; the
validated record carries the fields in schema order; extra keys are
ignored. -/
def pydValidate : PydSchema → JsonObj → Option JsonObj
  | [], _ => some .nil
  | (k, ty) :: sch, o =>
    match objLookup o k with
    | none => none
    | some v => if tyMatch ty v then (pydValidate sch o).map (JsonObj.cons k v) else none

/-- Model of `PydanticEncoder.encode`: `data.model_dump_json().encode("utf-8")`.
Pydantic serializes compactly (no separator spaces) and does not escape
non-ASCII characters. -/
def pydanticEncode (fields : JsonObj) : List Nat :=
  utf8Encode (printJson false false (.obj fields))

/-- Model of `PydanticDecoder.decode`:
`self.model.model_validate_json(data.decode("utf-8"))`, failures wrapped
into `EncodingError`. -/
def pydanticDecode (schema : PydSchema) (data : List Nat) : Except PyException JsonObj :=
  match utf8Decode data with
  | none => .error encodingError
  | some chars =>
    match jsonLoads chars with
    | some (.obj o) =>
      match pydValidate schema o with
      | some fields => .ok fields
      | none => .error encodingError
    | _ => .error encodingError

/-- A pydantic instance of a schema: fields in schema order with matching
types. -/
def conforms : PydSchema → JsonObj → Bool
  | [], .nil => true
  | (k, ty) :: sch, .cons k2 v t => k = k2 && tyMatch ty v && conforms sch t
  | _, _ => false

/-! ### Bound on printed code points (needed for the UTF-8 round-trip) -/

lemma hexDigit_lt (d : Nat) (hd : d < 16) : hexDigit d < 0x110000 := by
  unfold hexDigit
  split <;> omega

lemma toHex4_lt (n : Nat) : ∀ c ∈ toHex4 n, c < 0x110000 := by
  intro c hc
  simp only [toHex4, List.mem_cons, List.not_mem_nil, or_false] at hc
  rcases hc with rfl | rfl | rfl | rfl <;>
    exact hexDigit_lt _ (Nat.mod_lt _ (by omega))

set_option maxHeartbeats 1000000 in
lemma escapeChar_lt (ea : Bool) (c : Nat) (hc : c < 0x110000) :
    ∀ x ∈ escapeChar ea c, x < 0x110000 := by
  intro x hx
  unfold escapeChar at hx
  split_ifs at hx
  all_goals
    first
      | (simp only [List.mem_cons, List.not_mem_nil, or_false] at hx
         rcases hx with rfl | rfl
         · omega
         · omega)
      | (simp only [List.mem_cons, List.not_mem_nil, or_false] at hx
         rcases hx with rfl | rfl | hx
         · omega
         · omega
         · exact toHex4_lt _ x hx)
      | (simp only [List.cons_append, List.mem_cons, List.mem_append,
          List.not_mem_nil, or_false] at hx
         rcases hx with rfl | rfl | hx | rfl | rfl | hx
         · omega
         · omega
         · exact toHex4_lt _ x hx
         · omega
         · omega
         · exact toHex4_lt _ x hx)
      | (simp only [List.mem_singleton] at hx
         omega)

lemma escapeString_lt (ea : Bool) (s : List Nat) (hs : ∀ c ∈ s, c < 0x110000) :
    ∀ x ∈ escapeString ea s, x < 0x110000 := by
  intro x hx
  simp only [escapeString, List.mem_flatten, List.mem_map] at hx
  obtain ⟨l, ⟨c, hc, rfl⟩, hxl⟩ := hx
  exact escapeChar_lt ea c (hs c hc) x hxl

lemma printString_lt (ea : Bool) (s : List Nat) (hs : ∀ c ∈ s, c < 0x110000) :
    ∀ x ∈ printString ea s, x < 0x110000 := by
  intro x hx
  simp only [printString, List.mem_cons, List.mem_append, List.mem_singleton] at hx
  rcases hx with (rfl | h) | (rfl | h)
  · omega
  · exact escapeString_lt ea s hs x h
  · omega
  · cases h

lemma natToDigits_lt (n : Nat) : ∀ c ∈ natToDigits n, c < 0x110000 := by
  intro c hc
  have := natToDigits_all_digits n c hc
  simp [isDigitCp, Bool.and_eq_true, decide_eq_true_eq] at this
  omega

lemma intToChars_lt (n : Int) : ∀ c ∈ intToChars n, c < 0x110000 := by
  intro c hc
  unfold intToChars at hc
  split at hc
  · rcases List.mem_cons.mp hc with rfl | h
    · omega
    · exact natToDigits_lt _ _ h
  · exact natToDigits_lt _ _ hc

lemma printJson_chars_lt (ea sp : Bool) :
    ∀ n : Nat,
      (∀ v : Json, weight v ≤ n → wfJson v = true →
        ∀ c ∈ printJson ea sp v, c < 0x110000) ∧
      (∀ xs : JsonArr, weightArr xs ≤ n → wfArr xs = true →
        ∀ c ∈ printArrTail ea sp xs, c < 0x110000) ∧
      (∀ os : JsonObj, weightObj os ≤ n → wfObj os = true →
        ∀ c ∈ printObjTail ea sp os, c < 0x110000) := by
  intro n
  induction n using Nat.strong_induction_on with
  | _ n ih =>
    refine ⟨?_, ?_, ?_⟩
    · intro v hv hwf c hc
      cases v with
      | null => simp [printJson] at hc; rcases hc with rfl | rfl | rfl | rfl <;> omega
      | bool b =>
        cases b <;> simp [printJson] at hc <;>
          first
            | (rcases hc with rfl | rfl | rfl | rfl | rfl <;> omega)
            | (rcases hc with rfl | rfl | rfl | rfl <;> omega)
      | int m => exact intToChars_lt m c hc
      | str s =>
        have hs : ∀ x ∈ s, x < 0x110000 := by
          intro x hx
          exact (scalarStr_forall s (by simpa [wfJson] using hwf) x hx).1
        exact printString_lt ea s hs c hc
      | arr xs =>
        cases xs with
        | nil => simp [printJson] at hc; rcases hc with rfl | rfl <;> omega
        | cons h t =>
          have hwf2 : wfJson h = true ∧ wfArr t = true := by
            simpa [wfJson, wfArr] using hwf
          have hn1 : n - 1 < n := by
            have := weight_pos h
            simp [weight, weightArr] at hv
            omega
          have hwh : weight h ≤ n - 1 := by
            simp [weight, weightArr] at hv
            omega
          have hwt : weightArr t ≤ n - 1 := by
            simp [weight, weightArr] at hv
            omega
          simp only [printJson, List.mem_cons, List.mem_append, List.mem_singleton,
            List.not_mem_nil, or_false] at hc
          rcases hc with (rfl | h1 | h1) | rfl
          · omega
          · exact (ih (n - 1) hn1).1 h hwh hwf2.1 c h1
          · exact (ih (n - 1) hn1).2.1 t hwt hwf2.2 c h1
          · omega
      | obj os =>
        cases os with
        | nil => simp [printJson] at hc; rcases hc with rfl | rfl <;> omega
        | cons k v t =>
          have hwf2 : scalarStr k = true ∧ wfJson v = true ∧ wfObj t = true := by
            simpa [wfJson, wfObj, Bool.and_eq_true, and_assoc] using hwf
          have hn1 : n - 1 < n := by
            have := weight_pos v
            simp [weight, weightObj] at hv
            omega
          have hwv : weight v ≤ n - 1 := by
            simp [weight, weightObj] at hv
            omega
          have hwt : weightObj t ≤ n - 1 := by
            simp [weight, weightObj] at hv
            omega
          have hk : ∀ x ∈ k, x < 0x110000 := by
            intro x hx
            exact (scalarStr_forall k hwf2.1 x hx).1
          simp only [printJson, List.mem_cons, List.mem_append, List.mem_singleton,
            List.not_mem_nil, or_false] at hc
          rcases hc with (rfl | (((h1 | h1) | h1) | h1)) | rfl
          · omega
          · exact printString_lt ea k hk c h1
          · simp only [kvSep, List.mem_cons] at h1
            rcases h1 with rfl | h1
            · omega
            · cases sp <;> simp at h1 <;> omega
          · exact (ih (n - 1) hn1).1 v hwv hwf2.2.1 c h1
          · exact (ih (n - 1) hn1).2.2 t hwt hwf2.2.2 c h1
          · omega
    · intro xs hxs hwf c hc
      cases xs with
      | nil => simp [printArrTail] at hc
      | cons h t =>
        have hwf2 : wfJson h = true ∧ wfArr t = true := by
          simpa [wfArr, Bool.and_eq_true] using hwf
        have hn1 : n - 1 < n := by
          have := weight_pos h
          simp [weightArr] at hxs
          omega
        have hwh : weight h ≤ n - 1 := by
          simp [weightArr] at hxs
          omega
        have hwt : weightArr t ≤ n - 1 := by
          simp [weightArr] at hxs
          omega
        simp only [printArrTail, itemSep, List.mem_append, List.mem_cons] at hc
        rcases hc with ((rfl | h1) | h1) | h1
        · omega
        · cases sp <;> simp at h1 <;> omega
        · exact (ih (n - 1) hn1).1 h hwh hwf2.1 c h1
        · exact (ih (n - 1) hn1).2.1 t hwt hwf2.2 c h1
    · intro os hos hwf c hc
      cases os with
      | nil => simp [printObjTail] at hc
      | cons k v t =>
        have hwf2 : scalarStr k = true ∧ wfJson v = true ∧ wfObj t = true := by
          simpa [wfObj, Bool.and_eq_true, and_assoc] using hwf
        have hn1 : n - 1 < n := by
          have := weight_pos v
          simp [weightObj] at hos
          omega
        have hwv : weight v ≤ n - 1 := by
          simp [weightObj] at hos
          omega
        have hwt : weightObj t ≤ n - 1 := by
          simp [weightObj] at hos
          omega
        have hk : ∀ x ∈ k, x < 0x110000 := by
          intro x hx
          exact (scalarStr_forall k hwf2.1 x hx).1
        simp only [printObjTail, itemSep, List.mem_append, List.mem_cons] at hc
        rcases hc with ((((rfl | h1) | h1) | h1) | h1) | h1
        · omega
        · cases sp <;> simp at h1 <;> omega
        · exact printString_lt ea k hk c h1
        · simp only [kvSep, List.mem_cons] at h1
          rcases h1 with rfl | h1
          · omega
          · cases sp <;> simp at h1 <;> omega
        · exact (ih (n - 1) hn1).1 v hwv hwf2.2.1 c h1
        · exact (ih (n - 1) hn1).2.2 t hwt hwf2.2.2 c h1

/-! ### Codec round-trips -/

lemma stringCodec_roundtrip (s : List Nat) (hs : scalarStr s = true) :
    stringEncode s = .ok (utf8Encode s) ∧ stringDecode (utf8Encode s) = .ok s := by
  constructor
  · unfold stringEncode
    rw [if_pos (by simpa [scalarStr] using hs)]
  · have hlt : ∀ c ∈ s, c < 0x110000 := fun c hc => (scalarStr_forall s hs c hc).1
    simp [stringDecode, utf8Decode_encode s hlt]

lemma jsonDictCodec_roundtrip (v : Json) (hwf : wfJson v = true) :
    jsonDictDecode (jsonDictEncode v) = .ok v := by
  unfold jsonDictDecode jsonDictEncode
  have hlt : ∀ c ∈ printJson true true v, c < 0x110000 :=
    (printJson_chars_lt true true (weight v)).1 v le_rfl hwf
  simp [utf8Decode_encode _ hlt, jsonLoads_print true true v hwf]

/-- Keys of a model schema, in declaration order. -/
def schemaKeys (schema : PydSchema) : List (List Nat) := schema.map Prod.fst

lemma pydValidate_skip (schema : PydSchema) (k : List Nat) (v : Json) (t : JsonObj)
    (hk : k ∉ schemaKeys schema) :
    pydValidate schema (JsonObj.cons k v t) = pydValidate schema t := by
  induction schema with
  | nil => rfl
  | cons kv sch ih =>
    obtain ⟨k2, ty⟩ := kv
    have hne : k ≠ k2 := by
      intro h
      exact hk (by simp [schemaKeys, h])
    have hk2 : k ∉ schemaKeys sch := by
      intro h
      exact hk (by simp [schemaKeys] at h ⊢; exact Or.inr h)
    simp only [pydValidate, objLookup, if_neg hne]
    rw [ih hk2]

lemma pydValidate_conforms (schema : PydSchema) :
    ∀ fields : JsonObj, (schemaKeys schema).Nodup → conforms schema fields = true →
      pydValidate schema fields = some fields := by
  induction schema with
  | nil =>
    intro fields _ hc
    cases fields with
    | nil => rfl
    | cons k v t => simp [conforms] at hc
  | cons kv sch ih =>
    intro fields hnd hc
    obtain ⟨k, ty⟩ := kv
    cases fields with
    | nil => simp [conforms] at hc
    | cons k2 v t =>
      simp only [conforms, Bool.and_eq_true, decide_eq_true_eq] at hc
      obtain ⟨⟨rfl, hty⟩, hct⟩ := hc
      have hnd2 : (schemaKeys sch).Nodup := by
        simpa [schemaKeys] using List.Nodup.of_cons (by simpa [schemaKeys] using hnd)
      have hknot : k ∉ schemaKeys sch := by
        have := (by simpa [schemaKeys] using hnd : ¬ k ∈ schemaKeys sch ∧ (schemaKeys sch).Nodup)
        exact this.1
      simp only [pydValidate, objLookup, if_pos rfl, hty, if_pos]
      rw [pydValidate_skip sch k v t hknot, ih t hnd2 hct]
      rfl

lemma pydanticCodec_roundtrip (schema : PydSchema) (fields : JsonObj)
    (hnd : (schemaKeys schema).Nodup) (hc : conforms schema fields = true)
    (hwf : wfObj fields = true) :
    pydanticDecode schema (pydanticEncode fields) = .ok fields := by
  unfold pydanticDecode pydanticEncode
  have hwfv : wfJson (.obj fields) = true := by simpa [wfJson] using hwf
  have hlt : ∀ c ∈ printJson false false (.obj fields), c < 0x110000 :=
    (printJson_chars_lt false false (weight (.obj fields))).1 _ le_rfl hwfv
  simp [utf8Decode_encode _ hlt, jsonLoads_print false false (.obj fields) hwfv,
    pydValidate_conforms schema fields hnd hc]

/-! ## Polymorphic codec selection (model of `tacoq/core/encoding/polymorphic.py`) -/

/-- A Python type value as the introspection in `polymorphic.py` sees it. -/
inductive PyType where
  | bytesTy : PyType
  | strTy : PyType
  | dictTy : PyType
  | dictGeneric : PyType
  | listTy : PyType
  | genericAlias : PyType
  | modelClass (schema : PydSchema) : PyType
  | otherClass : PyType

/-- Whether `data_type is bytes`. -/
def isBytesTy : PyType → Bool
  | .bytesTy => true
  | _ => false

/-- Whether `data_type is str`. -/
def isStrTy : PyType → Bool
  | .strTy => true
  | _ => false

/-- Whether `data_type is dict or get_origin(data_type) is dict`. -/
def isDictLike : PyType → Bool
  | .dictTy => true
  | .dictGeneric => true
  | _ => false

/-- Whether `inspect.isclass(data_type)` holds: parameterized generics
(`dict[str, int]`, `list[int]`, `Optional[str]`, …) are not classes. -/
def isclass : PyType → Bool
  | .dictGeneric => false
  | .genericAlias => false
  | _ => true

/-- Whether the type is a `BaseModel` subclass (only meaningful for
classes). -/
def isModelSubclass : PyType → Bool
  | .modelClass _ => true
  | _ => false

/-- Registration-time error kinds raised by codec selection and
`register_task`. -/
inductive RegError where
  | valueError : RegError
  | encodingError : RegError
  | typeError : RegError
deriving DecidableEq

/-- Selected encoder value. -/
inductive EncoderV where
  | passthrough : EncoderV
  | string : EncoderV
  | jsonDict : EncoderV
  | pydantic : EncoderV

/-- Selected decoder value (the pydantic decoder carries the model
class). -/
inductive DecoderV where
  | passthrough : DecoderV
  | string : DecoderV
  | jsonDict : DecoderV
  | pydantic (schema : PydSchema) : DecoderV

/-- Model of `create_encoder`: the `if data_type is bytes / str / dict /
issubclass(BaseModel)` chain.  The `BaseModel` test is guarded by
`isclass(data_type) and …`, so non-classes short-circuit to the
`EncodingError` branch. -/
def create_encoder (t : PyType) : Except RegError EncoderV :=
  if isBytesTy t then .ok .passthrough
  else if isStrTy t then .ok .string
  else if isDictLike t then .ok .jsonDict
  else if isclass t && isModelSubclass t then .ok .pydantic
  else .error .encodingError

/-- Model of `create_decoder`: the same chain, but its `issubclass`
test has no `isclass` guard, so CPython's `issubclass` raises
`TypeError` when the argument is a parameterized generic rather than a
class. -/
def create_decoder (t : PyType) : Except RegError DecoderV :=
  if isBytesTy t then .ok .passthrough
  else if isStrTy t then .ok .string
  else if isDictLike t then .ok .jsonDict
  else if isclass t then
    match t with
    | .modelClass schema => .ok (.pydantic schema)
    | _ => .error .encodingError
  else .error .typeError

/-! ## Worker runtime (model of `tacoq/worker/client.py`) -/

/-- A decoded Python value as it flows through `TaskHandler.execute`:
raw bytes, a JSON-representable value (str / dict / …), or a pydantic
model instance. -/
inductive PyVal where
  | bytes (b : List Nat) : PyVal
  | json (v : Json) : PyVal
  | model (schema : PydSchema) (fields : JsonObj) : PyVal

/-- Code points of `"TypeError"`. -/
def typeErrorName : List Nat := [84, 121, 112, 101, 69, 114, 114, 111, 114]

/-- Dispatch of a stored decoder value on raw input bytes. -/
def decodeV : DecoderV → List Nat → Except PyException PyVal
  | .passthrough, b => .ok (.bytes (passthroughDecode b))
  | .string, b => (stringDecode b).map (fun s => .json (.str s))
  | .jsonDict, b => (jsonDictDecode b).map .json
  | .pydantic schema, b => (pydanticDecode schema b).map (.model schema)

/-- Dispatch of a stored encoder value on a handler's output value.
Codec/value mismatches raise inside the codec's `try` (an
`AttributeError`/`TypeError` re-raised as `EncodingError`), except for
the passthrough encoder, which has no `try`; a non-bytes value reaching
it is modeled as the `TypeError` the runtime would hit downstream. -/
def encodeV : EncoderV → PyVal → Except PyException (List Nat)
  | .passthrough, .bytes b => .ok (passthroughEncode b)
  | .passthrough, _ => .error ⟨typeErrorName, []⟩
  | .string, .json (.str s) => stringEncode s
  | .string, _ => .error encodingError
  | .jsonDict, .json v => .ok (jsonDictEncode v)
  | .jsonDict, _ => .error encodingError
  | .pydantic, .model _ fields => .ok (pydanticEncode fields)
  | .pydantic, _ => .error encodingError

/-- A registered task handler (`TaskHandler` in `worker/client.py`): the
kind, the async handler function, and the stored input/output codecs.
Task kinds are opaque strings, modeled as `Nat`. -/
structure TaskHandler where
  kind : Nat
  taskFunction : PyVal → Except PyException PyVal
  inputDecoder : DecoderV
  outputEncoder : EncoderV

/-- Model of `TaskHandler.execute`: decode the raw input, run the
handler, encode the output; any raised exception propagates. -/
def TaskHandler.execute (h : TaskHandler) (inputData : List Nat) :
    Except PyException (List Nat) := do
  let decoded ← decodeV h.inputDecoder inputData
  let out ← h.taskFunction decoded
  encodeV h.outputEncoder out

/-- Python dict assignment `d[k] = v`: replaces in place, else appends. -/
def dictSet {α : Type} : List (Nat × α) → Nat → α → List (Nat × α)
  | [], k, v => [(k, v)]
  | (k2, v2) :: t, k, v =>
    if k2 = k then (k, v) :: t else (k2, v2) :: dictSet t k v

/-- Python `d.get(k)`: first (unique) binding of the key. -/
def dictGet {α : Type} : List (Nat × α) → Nat → Option α
  | [], _ => none
  | (k2, v2) :: t, k => if k2 = k then some v2 else dictGet t k

/-- The handler registry `WorkerApplication._registered_tasks`. -/
def Registry : Type := List (Nat × TaskHandler)

/-- A handler function together with its introspectable signature, as
`register_task` sees it (`get_type_hints` on the first parameter and on
the return annotation). -/
structure PyFunc where
  firstParamHint : Option PyType
  returnHint : Option PyType
  call : PyVal → Except PyException PyVal

/-- Model of `WorkerApplication.register_task`: resolve the input
decoder (explicit, or inferred from the first parameter's type hint),
then the output encoder (explicit, or inferred from the return hint),
and only then assign `self._registered_tasks[kind]`.  An error in any
earlier step leaves the registry untouched. -/
def registerTask (reg : Registry) (kind : Nat) (task : PyFunc)
    (inputDecoder : Option DecoderV) (outputEncoder : Option EncoderV) :
    Registry × Option RegError :=
  let decRes : Except RegError DecoderV :=
    match inputDecoder with
    | some d => .ok d
    | none =>
      match task.firstParamHint with
      | none => .error .valueError
      | some ty => create_decoder ty
  match decRes with
  | .error e => (reg, some e)
  | .ok dec =>
    let encRes : Except RegError EncoderV :=
      match outputEncoder with
      | some e => .ok e
      | none =>
        match task.returnHint with
        | none => .error .valueError
        | some ty => create_encoder ty
    match encRes with
    | .error e => (reg, some e)
    | .ok enc =>
      (dictSet reg kind ⟨kind, task.call, dec, enc⟩, none)

lemma dictGet_dictSet_same {α : Type} (reg : List (Nat × α)) (k : Nat) (v : α) :
    dictGet (dictSet reg k v) k = some v := by
  induction reg with
  | nil => simp [dictSet, dictGet]
  | cons kv t ih =>
    obtain ⟨k2, v2⟩ := kv
    by_cases h : k2 = k
    · simp [dictSet, dictGet, h]
    · simp [dictSet, dictGet, h, ih]

lemma dictGet_dictSet_other {α : Type} (reg : List (Nat × α)) (k k2 : Nat) (v : α)
    (h : k2 ≠ k) : dictGet (dictSet reg k v) k2 = dictGet reg k2 := by
  induction reg with
  | nil => simp [dictSet, dictGet, Ne.symm h]
  | cons kv t ih =>
    obtain ⟨k3, v3⟩ := kv
    by_cases h3 : k3 = k
    · subst h3
      simp [dictSet, dictGet, Ne.symm h]
    · simp only [dictSet, if_neg h3, dictGet]
      by_cases h4 : k3 = k2 <;> simp [h4, ih]

/-! ## Task execution unit (model of `WorkerApplication._execute_task_assignment`) -/

/-- A task assignment update as the worker receives it (its id is a UUID
and the kind an opaque string; both are modeled as `Nat`). -/
structure TaskAssignmentUpdate where
  id : Nat
  taskKind : Nat
  inputData : List Nat

/-- Broker-visible actions of one execution unit, in program order. -/
inductive WEvent where
  | publishRunningStarted (id : Nat) : WEvent
  | publishCompleted (id : Nat) (outputData : List Nat) (isError : Bool)
      (confirmed : Bool) : WEvent
  | ack : WEvent
  | nack (requeue : Bool) : WEvent
deriving DecidableEq

/-- Code points of `"type"` and `"message"`, the two fields of
`SerializedException` in declaration order. -/
def typeKey : List Nat := [116, 121, 112, 101]

/-- Code points of `"message"`. -/
def messageKey : List Nat := [109, 101, 115, 115, 97, 103, 101]

/-- Model of `SerializedException.from_exception` followed by
`json.dumps(exception.model_dump()).encode("utf-8")`: the UTF-8 bytes of
the JSON document with fields `type` and `message`. -/
def serializedExceptionBytes (e : PyException) : List Nat :=
  utf8Encode (printJson true true
    (.obj (.cons typeKey (.str e.ty) (.cons messageKey (.str e.msg) .nil))))

/-- Model of `_execute_task_assignment` for one delivery.  Returns the
ordered broker-visible events of the unit and whether the coroutine
raised (propagating to `asyncio.gather` during cleanup).

Parameters beyond the Python arguments model the environment:
`brokerClientInitialized` is whether `self._broker_client` is set, and
`publishCompletedOk` is whether the awaited
`publish_task_completed` call succeeds (broker confirm) — when it
raises, the `await message.ack()` below it is never reached.

The steps mirror the source in order: the broker-client check, the
handler lookup (a miss logs and `await message.nack()`s — aio-pika's
default is `requeue=True` — and returns, publishing nothing), the
fire-and-forget `asyncio.create_task(publish_task_running(...))`, the
guarded `task_handler.execute` whose exception is serialized with
`is_error=True`, the awaited `publish_task_completed`, and finally
`message.ack()`. -/
def executeTaskAssignment (registeredTasks : Registry) (upd : TaskAssignmentUpdate)
    (brokerClientInitialized : Bool) (publishCompletedOk : Bool) :
    List WEvent × Bool :=
  if ¬ brokerClientInitialized then ([], true)
  else
    match dictGet registeredTasks upd.taskKind with
    | none => ([.nack true], false)
    | some handler =>
      let result : List Nat × Bool :=
        match handler.execute upd.inputData with
        | .ok out => (out, false)
        | .error e => (serializedExceptionBytes e, true)
      if publishCompletedOk then
        ([.publishRunningStarted upd.id,
          .publishCompleted upd.id result.1 result.2 true,
          .ack], false)
      else
        ([.publishRunningStarted upd.id,
          .publishCompleted upd.id result.1 result.2 false], true)

/-! ## Graceful shutdown (model of `_cleanup` / `wait_for_shutdown`) -/

/-- Observable steps of `WorkerApplication._cleanup`. -/
inductive LEvent where
  | awaitUnit (i : Nat) : LEvent
  | brokerDisconnect : LEvent
  | setShutdownComplete : LEvent
deriving DecidableEq

/-- Runtime state relevant to shutdown: the in-flight set (unit ids),
the broker client (`none` = never built; `some c` = built, with `c`
whether its connection is open), and the completion event awaited by
`wait_for_shutdown`. -/
structure WorkerRtState where
  activeTasks : List Nat
  brokerClient : Option Bool
  shutdownComplete : Bool

/-- Model of `_cleanup`, parameterized by which in-flight units ended by
raising: `await asyncio.gather(*self._active_tasks)` either returns
after every unit completed or re-raises a unit's exception (and then
neither the disconnect nor `_shutdown_complete_event.set()` runs, so
`wait_for_shutdown` never returns — the `none` result).  Otherwise the
broker client, when present, is disconnected (`disconnect` errors are
caught and logged), and the completion event is set last. -/
def cleanup (st : WorkerRtState) (unitRaised : Nat → Bool) :
    List LEvent × Option WorkerRtState :=
  let gatherEvents := st.activeTasks.map LEvent.awaitUnit
  if st.activeTasks.any unitRaised then
    (gatherEvents, none)
  else
    let disconnectEvents : List LEvent :=
      match st.brokerClient with
      | none => []
      | some _ => [LEvent.brokerDisconnect]
    let brokerAfter : Option Bool :=
      match st.brokerClient with
      | none => none
      | some _ => some false
    (gatherEvents ++ disconnectEvents ++ [LEvent.setShutdownComplete],
      some { activeTasks := [], brokerClient := brokerAfter, shutdownComplete := true })

/-! ## Connection backoff (model of `_init_broker_client` under tenacity) -/

/-- Model of tenacity's `wait_exponential(multiplier, min, max)` delay for
a given attempt number: `multiplier * 2 ** (attempt_number - 1)`, clamped
into `[min, max]`.  `wait_exponential` draws no randomness. -/
def waitExponential (multiplier mn mx attemptNumber : Nat) : Nat :=
  max (max 0 mn) (min (multiplier * 2 ^ (attemptNumber - 1)) mx)

/-- The delay before retrying `_init_broker_client`, per its decorator
`retry(wait=wait_exponential(multiplier=1, min=1, max=15))` (seconds). -/
def initBrokerWait (attempt : Nat) : Nat := waitExponential 1 1 15 attempt

/-- The same delay exposed against a hypothetical random draw: the
decorator's wait function ignores any source of randomness. -/
def initBrokerWaitSeeded (seed : Nat) (attempt : Nat) : Nat := initBrokerWait attempt

/-- Modelled from the spec: a retry-wait policy has *jitter* when the
delay for some attempt depends on the random draw. -/
def HasJitter (w : Nat → Nat → Nat) : Prop := ∃ s1 s2 a, w s1 a ≠ w s2 a

/-- Model of the retry loop around `_init_broker_client`: tenacity with
no `stop` clause retries every failure forever, sleeping the
`initBrokerWait` of the attempt number between attempts.  The fuel only
truncates observation: `none` means the loop is still retrying, never
that an error escaped. -/
def initBrokerRun (connectOk : Nat → Bool) : Nat → Nat → Option (Nat × List Nat)
  | 0, _ => none
  | f + 1, attempt =>
    if connectOk attempt then some (attempt, [])
    else
      match initBrokerRun connectOk f (attempt + 1) with
      | none => none
      | some (a, ds) => some (a, initBrokerWait attempt :: ds)

/-- Connection bring-up starting from attempt 1, as `entrypoint` invokes
it. -/
def initBrokerClient (connectOk : Nat → Bool) (fuel : Nat) : Option (Nat × List Nat) :=
  initBrokerRun connectOk fuel 1

/-! ## Publisher `get_task` (model of `PublisherClient.get_task`) -/

/-- The relay's read model of a task, reduced to what the polling loop
inspects (`has_finished`) plus an opaque payload tag. -/
structure TaskRM where
  hasFinished : Bool
  tag : Nat
deriving DecidableEq

/-- Observable actions of `get_task`: a relay fetch (with its ordinal)
and a sleep in milliseconds. -/
inductive GEvent where
  | relayFetch (i : Nat) : GEvent
  | sleepMs (ms : Nat) : GEvent
deriving DecidableEq

/-- The `while task is None or not task.has_finished` condition. -/
def getTaskWhileCond : Option TaskRM → Bool
  | none => true
  | some t => !t.hasFinished

/-- Model of the `get_task` polling loop over an oracle giving the
relay's answer to the i-th fetch.  Each iteration fetches once; without
`retry_until_complete` it breaks immediately and returns whatever the
relay answered; with it, it sleeps 0.25 s and re-checks the condition.
The fuel bounds the observed iterations; `none` means still polling. -/
def getTaskLoop (oracle : Nat → Option TaskRM) (retryUntilComplete : Bool) :
    Nat → Nat → Option TaskRM → List GEvent × Option (Option TaskRM)
  | 0, _, task =>
    if getTaskWhileCond task then ([], none) else ([], some task)
  | f + 1, i, task =>
    if getTaskWhileCond task then
      let t := oracle i
      if !retryUntilComplete then ([.relayFetch i], some t)
      else
        let rec2 := getTaskLoop oracle retryUntilComplete f (i + 1) t
        (.relayFetch i :: .sleepMs 250 :: rec2.1, rec2.2)
    else ([], some task)

/-- Model of `PublisherClient.get_task`: the loop starts with
`task = None` and the first fetch. -/
def publisherGetTask (oracle : Nat → Option TaskRM) (retryUntilComplete : Bool)
    (fuel : Nat) : List GEvent × Option (Option TaskRM) :=
  getTaskLoop oracle retryUntilComplete fuel 0 none

/-! ## Claim theorems -/

/-- C1: for every delivery whose execution unit reaches the ack step, a
TaskCompleted event carrying that delivery's task id has been published
and confirmed by the broker before `message.ack()` is invoked; the
runtime never acknowledges a delivery without first publishing its
TaskCompleted. -/
theorem c1_completed_confirmed_before_ack
    (reg : Registry) (upd : TaskAssignmentUpdate) (binit pubOk : Bool)
    (hack : WEvent.ack ∈ (executeTaskAssignment reg upd binit pubOk).1) :
    ∃ out isErr, (executeTaskAssignment reg upd binit pubOk).1 =
      [.publishRunningStarted upd.id,
       .publishCompleted upd.id out isErr true,
       .ack] := by
  unfold executeTaskAssignment at hack ⊢
  cases binit with
  | false => simp at hack
  | true =>
    rw [if_neg (by simp)] at hack
    rw [if_neg (by simp)]
    match hreg : dictGet reg upd.taskKind with
    | none =>
      rw [hreg] at hack
      simp at hack
    | some handler =>
      rw [hreg] at hack
      cases pubOk with
      | false => simp at hack
      | true =>
        refine ⟨(match handler.execute upd.inputData with
            | Except.ok out => (out, false)
            | Except.error e => (serializedExceptionBytes e, true)).1,
          (match handler.execute upd.inputData with
            | Except.ok out => (out, false)
            | Except.error e => (serializedExceptionBytes e, true)).2, ?_⟩
        simp

/-- Witness for C1 at a concrete delivery: a registered passthrough
handler on empty input reaches the ack step, and its trace carries the
confirmed TaskCompleted before the ack. -/
theorem c1_completed_confirmed_before_ack_witness :
    WEvent.ack ∈ (executeTaskAssignment
      [(5, ⟨5, fun v => .ok v, .passthrough, .passthrough⟩)]
      ⟨77, 5, [1, 2, 3]⟩ true true).1 ∧
    ∃ out isErr, (executeTaskAssignment
      [(5, ⟨5, fun v => .ok v, .passthrough, .passthrough⟩)]
      ⟨77, 5, [1, 2, 3]⟩ true true).1 =
      [.publishRunningStarted 77, .publishCompleted 77 out isErr true, .ack] :=
  ⟨by decide,
   c1_completed_confirmed_before_ack _ _ true true (by decide)⟩

/-- C2 (as stated) is false on the code: with a task kind absent from
the registry the unit calls `message.nack()` with aio-pika's default
`requeue=True`; no nack-without-requeue occurs.  Concrete input: empty
registry, assignment id 0 of kind 0. -/
theorem c2_nack_without_requeue_counterexample :
    (executeTaskAssignment [] ⟨0, 0, []⟩ true true).1 = [WEvent.nack true] ∧
    WEvent.nack false ∉ (executeTaskAssignment [] ⟨0, 0, []⟩ true true).1 := by
  constructor
  · rfl
  · decide

/-- C2 (amended): when a delivery's task kind has no entry in the
handler registry, the execution unit nacks that delivery with the
library-default requeue semantics (`requeue=True`) and publishes neither
a TaskRunning nor a TaskCompleted event for it. -/
theorem c2_missing_handler_nacks_and_publishes_nothing
    (reg : Registry) (upd : TaskAssignmentUpdate) (pubOk : Bool)
    (hmiss : dictGet reg upd.taskKind = none) :
    (executeTaskAssignment reg upd true pubOk).1 = [WEvent.nack true] ∧
    (∀ id out isErr conf,
      WEvent.publishCompleted id out isErr conf ∉ (executeTaskAssignment reg upd true pubOk).1) ∧
    (∀ id, WEvent.publishRunningStarted id ∉ (executeTaskAssignment reg upd true pubOk).1) := by
  have htr : (executeTaskAssignment reg upd true pubOk).1 = [WEvent.nack true] := by
    unfold executeTaskAssignment
    rw [hmiss]
    simp
  refine ⟨htr, ?_, ?_⟩
  · intro id out isErr conf
    rw [htr]
    simp
  · intro id
    rw [htr]
    simp

/-- Witness for C2 (amended) at a concrete input: the empty registry
misses kind 3. -/
theorem c2_missing_handler_nacks_and_publishes_nothing_witness :
    dictGet ([] : Registry) 3 = none ∧
    (executeTaskAssignment [] ⟨9, 3, [4]⟩ true false).1 = [WEvent.nack true] :=
  ⟨rfl, (c2_missing_handler_nacks_and_publishes_nothing [] ⟨9, 3, [4]⟩ false rfl).1⟩

/-- C3: when `wait_for_shutdown` returns (the shutdown-complete event is
set only as the last step of `_cleanup`), every spawned execution unit
has completed, the in-flight set is empty, the broker client is no
longer connected, and no event — in particular no broker operation —
follows the completion event. -/
theorem c3_shutdown_drains_and_disconnects
    (st : WorkerRtState) (unitRaised : Nat → Bool) (tr : List LEvent)
    (st2 : WorkerRtState) (hret : cleanup st unitRaised = (tr, some st2)) :
    st2.activeTasks = [] ∧ st2.shutdownComplete = true ∧
    st2.brokerClient ≠ some true ∧
    ∃ pre, tr = pre ++ [LEvent.setShutdownComplete] ∧
      LEvent.setShutdownComplete ∉ pre := by
  unfold cleanup at hret
  by_cases hraise : st.activeTasks.any unitRaised
  · rw [if_pos hraise] at hret
    simp at hret
  · rw [if_neg hraise] at hret
    cases hbc : st.brokerClient with
    | none =>
      simp only [hbc, Prod.mk.injEq, Option.some.injEq] at hret
      obtain ⟨htr, rfl⟩ := hret
      refine ⟨rfl, rfl, by simp, st.activeTasks.map LEvent.awaitUnit ++ [], ?_, ?_⟩
      · rw [← htr]
      · simp
    | some c =>
      simp only [hbc, Prod.mk.injEq, Option.some.injEq] at hret
      obtain ⟨htr, rfl⟩ := hret
      refine ⟨rfl, rfl, by simp,
        st.activeTasks.map LEvent.awaitUnit ++ [LEvent.brokerDisconnect], ?_, ?_⟩
      · rw [← htr]
      · simp

/-- Witness for C3 at a concrete state: two in-flight units, neither
raising, with a connected broker client. -/
theorem c3_shutdown_drains_and_disconnects_witness :
    cleanup ⟨[1, 2], some true, false⟩ (fun _ => false) =
      ([LEvent.awaitUnit 1, LEvent.awaitUnit 2, LEvent.brokerDisconnect,
        LEvent.setShutdownComplete], some ⟨[], some false, true⟩) ∧
    ∃ pre, [LEvent.awaitUnit 1, LEvent.awaitUnit 2, LEvent.brokerDisconnect,
        LEvent.setShutdownComplete] = pre ++ [LEvent.setShutdownComplete] ∧
      LEvent.setShutdownComplete ∉ pre :=
  ⟨rfl, (c3_shutdown_drains_and_disconnects ⟨[1, 2], some true, false⟩
    (fun _ => false) _ _ rfl).2.2.2⟩

/-- C4: if the handler (or the input decode or output encode inside
`TaskHandler.execute`) raises, the runtime publishes TaskCompleted with
`is_error=True` and `output_data` equal to the UTF-8 JSON document with
fields `type` (the exception class name) and `message` (`str(e)`), and
then acks the delivery. -/
theorem c4_exception_serialized_then_acked
    (reg : Registry) (upd : TaskAssignmentUpdate) (h : TaskHandler) (e : PyException)
    (hreg : dictGet reg upd.taskKind = some h)
    (hexc : h.execute upd.inputData = .error e) :
    (executeTaskAssignment reg upd true true).1 =
      [.publishRunningStarted upd.id,
       .publishCompleted upd.id (serializedExceptionBytes e) true true,
       .ack] ∧
    serializedExceptionBytes e = utf8Encode (printJson true true
      (.obj (.cons typeKey (.str e.ty) (.cons messageKey (.str e.msg) .nil)))) := by
  constructor
  · unfold executeTaskAssignment
    rw [hreg]
    simp [hexc]
  · rfl

/-- Witness for C4 at a concrete delivery: a handler that raises a
`ValueError`-shaped exception; the trace publishes its serialization
with `is_error=True` and then acks. -/
theorem c4_exception_serialized_then_acked_witness :
    dictGet ([(2, (⟨2, fun _ => .error ⟨[86], [98]⟩, .passthrough, .passthrough⟩ : TaskHandler))] :
        Registry) 2 =
      some (⟨2, fun _ => .error ⟨[86], [98]⟩, .passthrough, .passthrough⟩ : TaskHandler) ∧
    (executeTaskAssignment
      ([(2, (⟨2, fun _ => .error ⟨[86], [98]⟩, .passthrough, .passthrough⟩ : TaskHandler))] :
        Registry)
      ⟨11, 2, []⟩ true true).1 =
      [.publishRunningStarted 11,
       .publishCompleted 11 (serializedExceptionBytes ⟨[86], [98]⟩) true true,
       .ack] :=
  ⟨rfl, (c4_exception_serialized_then_acked
    ([(2, (⟨2, fun _ => .error ⟨[86], [98]⟩, .passthrough, .passthrough⟩ : TaskHandler))] :
      Registry)
    ⟨11, 2, []⟩
    (⟨2, fun _ => .error ⟨[86], [98]⟩, .passthrough, .passthrough⟩ : TaskHandler)
    ⟨[86], [98]⟩ rfl rfl).1⟩

/-- C5: for every value of a codec-supported type, decoding the encoding
returns the original value — bytes via identity, strings of Unicode
scalar values via UTF-8, dicts (JSON objects of well-formed values) via
UTF-8 JSON, and schema-conforming pydantic records via validated JSON. -/
theorem c5_codec_roundtrips :
    (∀ b : List Nat, passthroughDecode (passthroughEncode b) = b) ∧
    (∀ s : List Nat, scalarStr s = true →
      (stringEncode s).bind stringDecode = .ok s) ∧
    (∀ o : JsonObj, wfObj o = true →
      jsonDictDecode (jsonDictEncode (.obj o)) = .ok (.obj o)) ∧
    (∀ (schema : PydSchema) (fields : JsonObj), (schemaKeys schema).Nodup →
      conforms schema fields = true → wfObj fields = true →
      pydanticDecode schema (pydanticEncode fields) = .ok fields) := by
  refine ⟨fun b => rfl, ?_, ?_, ?_⟩
  · intro s hs
    obtain ⟨henc, hdec⟩ := stringCodec_roundtrip s hs
    rw [henc]
    exact hdec
  · intro o ho
    exact jsonDictCodec_roundtrip (.obj o) (by simpa [wfJson] using ho)
  · intro schema fields hnd hc hwf
    exact pydanticCodec_roundtrip schema fields hnd hc hwf

/-- Witness for C5 at concrete values of each codec-supported type
(including a non-ASCII character and an astral character in the string,
and a negative integer in the dict). -/
theorem c5_codec_roundtrips_witness :
    passthroughDecode (passthroughEncode [0, 255, 7]) = [0, 255, 7] ∧
    (stringEncode [104, 233, 119070]).bind stringDecode = .ok [104, 233, 119070] ∧
    jsonDictDecode (jsonDictEncode (.obj (.cons [97] (.int (-5))
      (.cons [98] (.str [233, 10]) .nil)))) =
      .ok (.obj (.cons [97] (.int (-5)) (.cons [98] (.str [233, 10]) .nil))) ∧
    pydanticDecode [([107], .intF), ([110], .strF)]
        (pydanticEncode (.cons [107] (.int 42) (.cons [110] (.str [120]) .nil))) =
      .ok (.cons [107] (.int 42) (.cons [110] (.str [120]) .nil)) :=
  ⟨c5_codec_roundtrips.1 [0, 255, 7],
   c5_codec_roundtrips.2.1 [104, 233, 119070] (by decide),
   c5_codec_roundtrips.2.2.1 (.cons [97] (.int (-5)) (.cons [98] (.str [233, 10]) .nil))
     (by decide),
   c5_codec_roundtrips.2.2.2 [([107], .intF), ([110], .strF)]
     (.cons [107] (.int 42) (.cons [110] (.str [120]) .nil))
     (by decide) (by decide) (by decide)⟩

/-- C6: registering a handler for a kind and then registering another
handler for the same kind raises no error and replaces the entry: a
subsequent lookup yields the second handler with its decoder and
encoder, and the entries of every other kind are unchanged. -/
theorem c6_register_task_overwrites
    (reg : Registry) (k : Nat) (h h2 : PyFunc)
    (dec dec2 : DecoderV) (enc enc2 : EncoderV) :
    (registerTask reg k h (some dec) (some enc)).2 = none ∧
    (registerTask (registerTask reg k h (some dec) (some enc)).1
      k h2 (some dec2) (some enc2)).2 = none ∧
    dictGet (registerTask (registerTask reg k h (some dec) (some enc)).1
      k h2 (some dec2) (some enc2)).1 k = some ⟨k, h2.call, dec2, enc2⟩ ∧
    (∀ k3, k3 ≠ k →
      dictGet (registerTask (registerTask reg k h (some dec) (some enc)).1
        k h2 (some dec2) (some enc2)).1 k3 = dictGet reg k3) := by
  have e1 : registerTask reg k h (some dec) (some enc) =
      (dictSet reg k ⟨k, h.call, dec, enc⟩, none) := rfl
  have e2 : registerTask (dictSet reg k ⟨k, h.call, dec, enc⟩) k h2 (some dec2) (some enc2) =
      (dictSet (dictSet reg k ⟨k, h.call, dec, enc⟩) k ⟨k, h2.call, dec2, enc2⟩, none) := rfl
  rw [e1]
  refine ⟨rfl, by rw [e2], ?_, ?_⟩
  · rw [e2]
    exact dictGet_dictSet_same _ _ _
  · intro k3 hk3
    rw [e2]
    rw [dictGet_dictSet_other _ _ _ _ hk3, dictGet_dictSet_other _ _ _ _ hk3]

/-- Witness for C6 at a concrete pair of registrations (kinds 0 and 1). -/
theorem c6_register_task_overwrites_witness :
    dictGet (registerTask (registerTask
        ([(1, (⟨1, fun v => .ok v, .passthrough, .passthrough⟩ : TaskHandler))] : Registry)
        0 ⟨none, none, fun v => .ok v⟩ (some .passthrough) (some .passthrough)).1
      0 ⟨none, none, fun _ => .ok (.bytes [])⟩ (some .string) (some .string)).1 0 =
      some ⟨0, fun _ => .ok (.bytes []), .string, .string⟩ ∧
    dictGet (registerTask (registerTask
        ([(1, (⟨1, fun v => .ok v, .passthrough, .passthrough⟩ : TaskHandler))] : Registry)
        0 ⟨none, none, fun v => .ok v⟩ (some .passthrough) (some .passthrough)).1
      0 ⟨none, none, fun _ => .ok (.bytes [])⟩ (some .string) (some .string)).1 1 =
      dictGet ([(1, (⟨1, fun v => .ok v, .passthrough, .passthrough⟩ : TaskHandler))] :
        Registry) 1 :=
  ⟨(c6_register_task_overwrites _ 0 ⟨none, none, fun v => .ok v⟩
      ⟨none, none, fun _ => .ok (.bytes [])⟩ .passthrough .string .passthrough .string).2.2.1,
   (c6_register_task_overwrites _ 0 ⟨none, none, fun v => .ok v⟩
      ⟨none, none, fun _ => .ok (.bytes [])⟩ .passthrough .string .passthrough .string).2.2.2
      1 (by decide)⟩

/-- C7: the claim says `create_encoder` and `create_decoder` both raise
`EncodingError` for any unsupported type.  `create_encoder` does (its
`BaseModel` test is guarded by `isclass`), but `create_decoder`'s
unguarded `issubclass` raises `TypeError` for a parameterized generic
such as `list[int]`, contradicting its own docstring ("Raises
EncodingError: If no suitable decoder is found for the type"). -/
theorem c7_create_decoder_typeerror_on_generic :
    create_decoder PyType.genericAlias = .error RegError.typeError ∧
    create_encoder PyType.genericAlias = .error RegError.encodingError ∧
    create_decoder PyType.otherClass = .error RegError.encodingError ∧
    create_encoder PyType.otherClass = .error RegError.encodingError :=
  ⟨rfl, rfl, rfl, rfl⟩

lemma initBrokerRun_all_fail (ok : Nat → Bool) (hok : ∀ a, ok a = false) :
    ∀ fuel attempt, initBrokerRun ok fuel attempt = none := by
  intro fuel
  induction fuel with
  | zero => intro attempt; rfl
  | succ f ih =>
    intro attempt
    simp [initBrokerRun, hok attempt, ih (attempt + 1)]

lemma initBrokerRun_reaches (ok : Nat → Bool) :
    ∀ fuel attempt m, attempt ≤ m → m < attempt + fuel → ok m = true →
      (initBrokerRun ok fuel attempt).isSome = true := by
  intro fuel
  induction fuel with
  | zero =>
    intro attempt m h1 h2 _
    omega
  | succ f ih =>
    intro attempt m h1 h2 hm
    by_cases hA : ok attempt = true
    · simp [initBrokerRun, hA]
    · have hma : m ≠ attempt := by
        intro he
        rw [he] at hm
        exact hA hm
      have hrec := ih (attempt + 1) m (by omega) (by omega) hm
      obtain ⟨p, hp⟩ := Option.isSome_iff_exists.mp hrec
      obtain ⟨a, ds⟩ := p
      simp [initBrokerRun, hA, hp]

lemma initBrokerWait_doubles (a : Nat) (ha : 1 ≤ a) :
    initBrokerWait (a + 1) = min (2 * initBrokerWait a) 15 := by
  unfold initBrokerWait waitExponential
  have h2 : 2 ^ (a + 1 - 1) = 2 * 2 ^ (a - 1) := by
    rw [show a + 1 - 1 = (a - 1) + 1 by omega, pow_succ]
    ring
  rw [h2]
  have hx : 1 ≤ 2 ^ (a - 1) := Nat.one_le_two_pow
  generalize 2 ^ (a - 1) = x at hx ⊢
  omega

/-- C8 (as stated) is false on the code: the decorator
`retry(wait=wait_exponential(multiplier=1, min=1, max=15))` uses
tenacity's jitterless exponential wait — the delay for an attempt is a
function of the attempt number alone and does not depend on any random
draw. -/
theorem c8_jitter_counterexample : ¬ HasJitter initBrokerWaitSeeded := by
  rintro ⟨s1, s2, a, h⟩
  exact h rfl

/-- C8 (amended): `entrypoint` establishes the broker connection under
exponential backoff *without* jitter — first retry delay 1 s, doubling
per attempt, capped at 15 s, with unbounded retries — so a connection
failure is logged but never terminates `entrypoint`: a permanently
failing connect keeps the loop retrying (no error escapes), and any
eventually-successful attempt is reached. -/
theorem c8_backoff_schedule :
    (initBrokerWait 1 = 1 ∧ initBrokerWait 2 = 2 ∧ initBrokerWait 3 = 4 ∧
      initBrokerWait 4 = 8 ∧ initBrokerWait 5 = 15 ∧ initBrokerWait 6 = 15) ∧
    (∀ a, 1 ≤ a → initBrokerWait (a + 1) = min (2 * initBrokerWait a) 15) ∧
    (∀ (ok : Nat → Bool) fuel, (∀ a, ok a = false) → initBrokerClient ok fuel = none) ∧
    (∀ (ok : Nat → Bool) n fuel, 1 ≤ n → ok n = true → n ≤ fuel →
      (initBrokerClient ok fuel).isSome = true) := by
  refine ⟨by decide, initBrokerWait_doubles, ?_, ?_⟩
  · intro ok fuel hok
    exact initBrokerRun_all_fail ok hok fuel 1
  · intro ok n fuel h1 hn hf
    exact initBrokerRun_reaches ok fuel 1 n h1 (by omega) hn

/-- Witness for C8 (amended) at concrete schedules: the doubling law at
attempt 3, a permanently failing connect still retrying after 7
attempts, and a connect that succeeds on attempt 3 being reached. -/
theorem c8_backoff_schedule_witness :
    initBrokerWait 4 = min (2 * initBrokerWait 3) 15 ∧
    initBrokerClient (fun _ => false) 7 = none ∧
    (initBrokerClient (fun a => decide (a = 3)) 5).isSome = true :=
  ⟨c8_backoff_schedule.2.1 3 (by decide),
   c8_backoff_schedule.2.2.1 (fun _ => false) 7 (fun _ => rfl),
   c8_backoff_schedule.2.2.2 (fun a => decide (a = 3)) 3 5 (by decide) (by decide) (by decide)⟩

lemma registerTask_shape (reg : Registry) (kind : Nat) (task : PyFunc)
    (din : Option DecoderV) (dout : Option EncoderV) :
    (∃ e, registerTask reg kind task din dout = (reg, some e)) ∨
    (∃ entry, registerTask reg kind task din dout = (dictSet reg kind entry, none)) := by
  unfold registerTask
  try dsimp only
  try split
  all_goals try dsimp only
  all_goals try split
  all_goals try dsimp only
  all_goals try split
  all_goals try dsimp only
  all_goals try split
  all_goals try dsimp only
  all_goals try split
  all_goals try dsimp only
  all_goals try split
  all_goals try dsimp only
  all_goals
    first
      | exact Or.inl ⟨_, rfl⟩
      | exact Or.inr ⟨_, rfl⟩

/-- C9: when `register_task` raises — the input decoder omitted with an
unannotated first parameter, the output encoder omitted with no return
annotation, or codec creation failing for a hinted type — the handler
registry is left unchanged: no entry for that kind is inserted or
replaced. -/
theorem c9_register_error_leaves_registry
    (reg : Registry) (kind : Nat) (task : PyFunc)
    (din : Option DecoderV) (dout : Option EncoderV) (e : RegError)
    (h : (registerTask reg kind task din dout).2 = some e) :
    (registerTask reg kind task din dout).1 = reg := by
  rcases registerTask_shape reg kind task din dout with ⟨e2, he⟩ | ⟨entry, he⟩
  · rw [he]
  · rw [he] at h
    cases h

/-- Witness for C9 at a concrete failing registration: a handler with no
type hints registered without explicit codecs raises `ValueError` and
leaves the registry unchanged. -/
theorem c9_register_error_leaves_registry_witness :
    (registerTask ([(4, (⟨4, fun v => .ok v, .passthrough, .passthrough⟩ : TaskHandler))] :
        Registry) 9 ⟨none, none, fun v => .ok v⟩ none none).2 = some .valueError ∧
    (registerTask ([(4, (⟨4, fun v => .ok v, .passthrough, .passthrough⟩ : TaskHandler))] :
        Registry) 9 ⟨none, none, fun v => .ok v⟩ none none).1 =
      [(4, (⟨4, fun v => .ok v, .passthrough, .passthrough⟩ : TaskHandler))] :=
  ⟨rfl, c9_register_error_leaves_registry _ 9 ⟨none, none, fun v => .ok v⟩
    none none .valueError rfl⟩

lemma getTaskLoop_retry_spec (oracle : Nat → Option TaskRM) :
    ∀ fuel i task evs r, getTaskLoop oracle true fuel i task = (evs, some r) →
      getTaskWhileCond r = false ∧
      ∃ n, evs = ((List.range' i n).map
        (fun j => [GEvent.relayFetch j, GEvent.sleepMs 250])).flatten := by
  intro fuel
  induction fuel with
  | zero =>
    intro i task evs r h
    by_cases hc : getTaskWhileCond task = true
    · simp [getTaskLoop, hc] at h
    · simp only [getTaskLoop, if_neg hc, Prod.mk.injEq, Option.some.injEq] at h
      obtain ⟨rfl, rfl⟩ := h
      exact ⟨by simpa using hc, 0, rfl⟩
  | succ f ih =>
    intro i task evs r h
    by_cases hc : getTaskWhileCond task = true
    · simp only [getTaskLoop, if_pos hc, Bool.not_true, Bool.false_eq_true, if_false,
        Prod.mk.injEq] at h
      obtain ⟨hevs, hr⟩ := h
      obtain ⟨hcond, n, hn⟩ := ih (i + 1) (oracle i)
        (getTaskLoop oracle true f (i + 1) (oracle i)).1 r (by rw [← hr])
      refine ⟨hcond, n + 1, ?_⟩
      rw [← hevs, hn]
      simp [List.range'_succ]
    · simp only [getTaskLoop, if_neg hc, Prod.mk.injEq, Option.some.injEq] at h
      obtain ⟨rfl, rfl⟩ := h
      exact ⟨by simpa using hc, 0, rfl⟩

/-- C10: `get_task` with `retry_until_complete=False` performs exactly
one relay fetch and returns its result (`None` when the relay has no
record, otherwise the task even if unfinished); with
`retry_until_complete=True` it polls every 0.25 s and only ever returns
a non-`None` task whose `has_finished` is true. -/
theorem c10_get_task_polling :
    (∀ (oracle : Nat → Option TaskRM) f,
      publisherGetTask oracle false (f + 1) = ([GEvent.relayFetch 0], some (oracle 0))) ∧
    (∀ (oracle : Nat → Option TaskRM) fuel evs r,
      publisherGetTask oracle true fuel = (evs, some r) →
      (∃ t, r = some t ∧ t.hasFinished = true) ∧
      ∃ n, evs = ((List.range n).map
        (fun j => [GEvent.relayFetch j, GEvent.sleepMs 250])).flatten) := by
  constructor
  · intro oracle f
    simp [publisherGetTask, getTaskLoop, getTaskWhileCond]
  · intro oracle fuel evs r h
    obtain ⟨hcond, n, hn⟩ := getTaskLoop_retry_spec oracle fuel 0 none evs r h
    refine ⟨?_, n, by rw [hn, List.range_eq_range']⟩
    cases r with
    | none => simp [getTaskWhileCond] at hcond
    | some t =>
      refine ⟨t, rfl, ?_⟩
      simpa [getTaskWhileCond] using hcond

/-- Witness for C10 at a concrete oracle whose first answer is already a
finished task: one fetch without retry; with retry, the returned task
has finished and the trace shows the fetch/0.25 s-sleep cadence. -/
theorem c10_get_task_polling_witness :
    publisherGetTask (fun i => some ⟨true, i⟩) false 3 =
      ([GEvent.relayFetch 0], some (some ⟨true, 0⟩)) ∧
    ((∃ t, some (⟨true, 0⟩ : TaskRM) = some t ∧ t.hasFinished = true) ∧
      ∃ n, [GEvent.relayFetch 0, GEvent.sleepMs 250] = ((List.range n).map
        (fun j => [GEvent.relayFetch j, GEvent.sleepMs 250])).flatten) :=
  ⟨c10_get_task_polling.1 (fun i => some ⟨true, i⟩) 2,
   c10_get_task_polling.2 (fun i => some ⟨true, i⟩) 2
     [GEvent.relayFetch 0, GEvent.sleepMs 250] (some ⟨true, 0⟩) rfl⟩

end TacoQ
